import Mathlib

/-!
Verification of the SDL OSD work-queue subsystem (`sdlwork.c`).

The development shallowly embeds the C source:

* the scalable "rotating baton" lock (`scalable_lock_init`, `scalable_lock_acquire`,
  `scalable_lock_release`) as pure functions plus an interleaved transition system
  over the lock state and the program counters of the client threads;
* the work queue and work items as a heap-style state (`OsdWorkQueue`): items live in
  a backing store `arr`, identified by their index, and the pending list, the tail
  pointer and the free list are represented exactly as the C pointer structure
  (`list`, `tailptr`, `free` as optional indices);
* the operations `osd_work_item_queue_multiple`, `worker_thread_process`,
  `osd_work_queue_wait`, `osd_work_item_wait`, `osd_work_item_release` and the
  allocation logic of `osd_work_queue_alloc` / `effective_num_processors`.

Machine integers appear as `Nat`/`Int` with explicit reductions modulo `2 ^ 32`
where the C code relies on wrap-around.
-/

namespace Sdlwork

/-- `MAX_THREADS` (line 49). -/
abbrev MAX_THREADS : Nat := 16

/-- Modelled from the spec: the work-queue flag bits are declared in `osdcore.h`,
which is not part of the provided sources; the spec describes `{ MULTI, IO }` as
independent bits of a mask.  The I/O bit. -/
def WORK_QUEUE_FLAG_IOBIT : Nat := 1

/-- Modelled from the spec: the MULTI bit of the queue-creation flag mask
(declared in `osdcore.h`, not in the provided sources). -/
def WORK_QUEUE_FLAG_MULTI : Nat := 2

/-- Modelled from the spec: the AUTO_RELEASE bit of the work-item flag mask
(declared in `osdcore.h`, not in the provided sources). -/
def WORK_ITEM_FLAG_AUTO_RELEASE : Nat := 1

/-! ## Scalable lock (lines 74-209) -/

/-- The scalable lock state: one `haslock` boolean per slot plus the running
`nextindex` counter.  `nextindex` is a 32-bit counter; we keep its unsigned bit
pattern as a `Nat` below `2 ^ 32`. -/
structure ScalableLock where
  haslock : Fin MAX_THREADS → Bool
  nextindex : Nat

/-- `scalable_lock_init` (lines 184-188): everything zeroed, then slot 0 gets the
baton. -/
def scalable_lock_init : ScalableLock :=
  { haslock := fun i => decide (i.val = 0), nextindex := 0 }

/-- The slot computed by `scalable_lock_acquire` (line 193):
`(osd_interlocked_increment(&nextindex) - 1) & (MAX_THREADS - 1)`, i.e. the
pre-increment counter value reduced modulo 16 (masking the low 4 bits of the
32-bit pattern equals reduction mod 16 because 16 divides `2 ^ 32`). -/
def acquire_slot (nextindex : Nat) : Fin MAX_THREADS :=
  ⟨nextindex % MAX_THREADS, Nat.mod_lt _ (by decide)⟩

/-- The counter value after the atomic increment in `scalable_lock_acquire`
(line 193), with 32-bit wrap-around. -/
def acquire_nextindex (nextindex : Nat) : Nat :=
  (nextindex + 1) % 2 ^ 32

/-- `scalable_lock_release` (lines 206-209): unconditionally store `TRUE` into
slot `(myslot + 1) & (MAX_THREADS - 1)` (the `Fin` addition wraps modulo 16). -/
def scalable_lock_release (haslock : Fin MAX_THREADS → Bool)
    (myslot : Fin MAX_THREADS) : Fin MAX_THREADS → Bool :=
  Function.update haslock (myslot + 1) true

/-- Program counter of one client thread of the lock: idle, spinning on the CAS
of `scalable_lock_acquire` for a drawn slot, or inside the critical section
holding a slot. -/
inductive ThreadPC where
  | idle : ThreadPC
  | waiting : Fin MAX_THREADS → ThreadPC
  | holding : Fin MAX_THREADS → ThreadPC
deriving DecidableEq

/-- Interleaved system: the lock plus the program counter of every client
thread. -/
structure LockSys where
  lock : ScalableLock
  pc : Nat → ThreadPC

/-- Initial system state: freshly initialised lock, all threads idle. -/
def LockSys.init : LockSys :=
  { lock := scalable_lock_init, pc := fun _ => ThreadPC.idle }

/-- One atomic step of the lock protocol, interleaving any number of client
threads.  A call to `scalable_lock_acquire` is the `ticket` step (the atomic
increment of line 193) followed by a successful `casOk` step (the
compare-and-swap of line 196; failed CAS iterations do not change the state);
`scalable_lock_release` is the `release` step (line 208), performed by a thread
with the ticket it obtained from its acquire. -/
inductive LockStep : LockSys → LockSys → Prop where
  | ticket (t : Nat) (s : LockSys) (h : s.pc t = ThreadPC.idle) :
      LockStep s
        { lock := { haslock := s.lock.haslock,
                    nextindex := acquire_nextindex s.lock.nextindex },
          pc := Function.update s.pc t (ThreadPC.waiting (acquire_slot s.lock.nextindex)) }
  | casOk (t : Nat) (sl : Fin MAX_THREADS) (s : LockSys)
      (h : s.pc t = ThreadPC.waiting sl) (hl : s.lock.haslock sl = true) :
      LockStep s
        { lock := { haslock := Function.update s.lock.haslock sl false,
                    nextindex := s.lock.nextindex },
          pc := Function.update s.pc t (ThreadPC.holding sl) }
  | release (t : Nat) (sl : Fin MAX_THREADS) (s : LockSys)
      (h : s.pc t = ThreadPC.holding sl) :
      LockStep s
        { lock := { haslock := scalable_lock_release s.lock.haslock sl,
                    nextindex := s.lock.nextindex },
          pc := Function.update s.pc t ThreadPC.idle }

/-- States reachable from the initial lock state by protocol steps. -/
inductive LockReachable : LockSys → Prop where
  | init : LockReachable LockSys.init
  | step {s s' : LockSys} : LockReachable s → LockStep s s' → LockReachable s'

/-- The baton invariant: either exactly one slot holds the baton and nobody is
in the critical section, or all slots are baton-free and exactly one thread is
in the critical section. -/
def LockInv (s : LockSys) : Prop :=
  ((∃ i, s.lock.haslock i = true ∧ ∀ j, s.lock.haslock j = true → j = i) ∧
      ∀ t sl, s.pc t ≠ ThreadPC.holding sl) ∨
    ((∀ i, s.lock.haslock i = false) ∧
      ∃ t sl, s.pc t = ThreadPC.holding sl ∧
        ∀ u sl', s.pc u = ThreadPC.holding sl' → u = t)

lemma lockInv_init : LockInv LockSys.init := by
  left
  constructor
  · exact ⟨0, by decide, fun j hj => by
      have : j.val = 0 := of_decide_eq_true hj
      exact Fin.ext this⟩
  · intro t sl h
    simp [LockSys.init] at h

lemma lockInv_step {s s' : LockSys} (hinv : LockInv s) (hstep : LockStep s s') :
    LockInv s' := by
  cases hstep with
  | ticket t st h =>
    rcases hinv with ⟨⟨i, hi, huniq⟩, hnone⟩ | ⟨hfalse, ⟨t0, sl0, ht0, huniq⟩⟩
    · left
      refine ⟨⟨i, hi, huniq⟩, ?_⟩
      intro u sl hu
      dsimp only at hu
      rw [Function.update_apply] at hu
      by_cases hut : u = t
      · simp [hut] at hu
      · simp [hut] at hu
        exact hnone u sl hu
    · right
      refine ⟨hfalse, ⟨t0, sl0, ?_, ?_⟩⟩
      · have htt0 : t0 ≠ t := by
          intro he
          subst he
          rw [ht0] at h
          cases h
        dsimp only
        rw [Function.update_apply]
        simp [htt0]
        exact ht0
      · intro u sl' hu
        dsimp only at hu
        rw [Function.update_apply] at hu
        by_cases hut : u = t
        · simp [hut] at hu
        · simp [hut] at hu
          exact huniq u sl' hu
  | casOk t sl st h hl =>
    rcases hinv with ⟨⟨i, hi, huniq⟩, hnone⟩ | ⟨hfalse, hhold⟩
    · right
      have hsl : sl = i := huniq sl hl
      subst hsl
      constructor
      · intro j
        dsimp only
        rw [Function.update_apply]
        by_cases hj : j = sl
        · simp [hj]
        · simp [hj]
          by_contra hcon
          have hjt : s.lock.haslock j = true := by
            cases hx : s.lock.haslock j
            · exact absurd hx hcon
            · rfl
          exact hj (huniq j hjt)
      · refine ⟨t, sl, by simp, ?_⟩
        intro u sl' hu
        dsimp only at hu
        rw [Function.update_apply] at hu
        by_cases hut : u = t
        · exact hut
        · simp [hut] at hu
          exact absurd hu (hnone u sl')
    · exact absurd hl (by simp [hfalse sl])
  | release t sl st h =>
    rcases hinv with ⟨⟨i, hi, huniq⟩, hnone⟩ | ⟨hfalse, ⟨t0, sl0, ht0, huniq⟩⟩
    · exact absurd h (hnone t sl)
    · have hte : t = t0 := huniq t sl h
      subst hte
      left
      constructor
      · refine ⟨sl + 1, ?_, ?_⟩
        · simp [scalable_lock_release, Function.update_same]
        · intro j hj
          dsimp only at hj
          rw [scalable_lock_release, Function.update_apply] at hj
          by_cases hje : j = sl + 1
          · exact hje
          · simp [hje] at hj
            exact absurd hj (by simp [hfalse j])
      · intro u sl' hu
        dsimp only at hu
        rw [Function.update_apply] at hu
        by_cases hut : u = t
        · simp [hut] at hu
        · simp [hut] at hu
          exact absurd (huniq u sl' hu) hut

/-- **C2.** Scalable-lock mutual exclusion: in every state reachable from the
initial lock state (slot 0 holds the baton, `nextindex = 0`, all clients idle)
by any interleaving of `scalable_lock_acquire` and `scalable_lock_release`
steps, at most one slot's `haslock` is true, and whenever a release step is
enabled (a thread holds slot `sl`), the slot it will write `true` into —
`(sl + 1) mod 16` — currently holds `false`. -/
theorem scalable_lock_mutual_exclusion (s : LockSys) (hr : LockReachable s) :
    (∀ i j : Fin MAX_THREADS,
        s.lock.haslock i = true → s.lock.haslock j = true → i = j) ∧
    (∀ t sl, s.pc t = ThreadPC.holding sl → s.lock.haslock (sl + 1) = false) := by
  have hinv : LockInv s := by
    induction hr with
    | init => exact lockInv_init
    | step hr hstep ih => exact lockInv_step ih hstep
  rcases hinv with ⟨⟨i, hi, huniq⟩, hnone⟩ | ⟨hfalse, _⟩
  · exact ⟨fun a b ha hb => (huniq a ha).trans (huniq b hb).symm,
      fun t sl h => absurd h (hnone t sl)⟩
  · exact ⟨fun a b ha _ => absurd ha (by simp [hfalse a]),
      fun t sl _ => hfalse _⟩

/-- A concrete run of the lock protocol: thread 0 has drawn its ticket
(slot 0). -/
def lockSysTicketed : LockSys :=
  { lock := { haslock := LockSys.init.lock.haslock,
              nextindex := acquire_nextindex LockSys.init.lock.nextindex },
    pc := Function.update LockSys.init.pc 0
      (ThreadPC.waiting (acquire_slot LockSys.init.lock.nextindex)) }

/-- The same run after thread 0's CAS succeeded: it holds slot 0. -/
def lockSysHeld : LockSys :=
  { lock := { haslock := Function.update lockSysTicketed.lock.haslock (acquire_slot 0) false,
              nextindex := lockSysTicketed.lock.nextindex },
    pc := Function.update lockSysTicketed.pc 0 (ThreadPC.holding (acquire_slot 0)) }

lemma lockSysHeld_reachable : LockReachable lockSysHeld :=
  @LockReachable.step lockSysTicketed lockSysHeld
    (@LockReachable.step LockSys.init lockSysTicketed LockReachable.init
      (LockStep.ticket 0 LockSys.init rfl))
    (LockStep.casOk 0 (acquire_slot 0) lockSysTicketed
      (by simp [lockSysTicketed, LockSys.init, scalable_lock_init]) (by decide))

/-- Witness for C2 at a concrete reachable state with a live holder. -/
theorem scalable_lock_mutual_exclusion_witness :
    lockSysHeld.pc 0 = ThreadPC.holding (acquire_slot 0) ∧
    lockSysHeld.lock.haslock (acquire_slot 0 + 1) = false :=
  ⟨by simp [lockSysHeld], (scalable_lock_mutual_exclusion lockSysHeld lockSysHeld_reachable).2
    0 (acquire_slot 0) (by simp [lockSysHeld])⟩

lemma acquire_nextindex_iterate (i n0 : Nat) (h : n0 < 2 ^ 32) :
    acquire_nextindex^[i] n0 = (n0 + i) % 2 ^ 32 := by
  induction i generalizing n0 with
  | zero => simpa using (Nat.mod_eq_of_lt h).symm
  | succ i ih =>
    rw [Function.iterate_succ_apply]
    have h1 : acquire_nextindex n0 = (n0 + 1) % 2 ^ 32 := rfl
    rw [h1, ih _ (Nat.mod_lt _ (by norm_num))]
    rw [Nat.mod_add_mod]
    omega

/-- **C3.** Scalable-lock protocol: the acquire of line 191-204 draws
`my_slot` as the pre-increment `nextindex` reduced modulo 16 and bumps the
32-bit counter; hence the `i`-th acquirer starting from counter `n0` gets slot
`(n0 + i) mod 16` (rotation), and from the initial state the very first
acquirer obtains slot 0, whose `haslock` is already true.  The release of
lines 206-209 stores `true` into slot `(my_slot + 1) mod 16`, which is never
`my_slot` itself, and leaves `my_slot`'s flag untouched. -/
theorem scalable_lock_protocol :
    (∀ n : Nat, (acquire_slot n).val = n % MAX_THREADS ∧
        acquire_nextindex n = (n + 1) % 2 ^ 32) ∧
    (∀ n0 i : Nat, n0 < 2 ^ 32 →
        (acquire_slot (acquire_nextindex^[i] n0)).val = (n0 + i) % MAX_THREADS) ∧
    (acquire_slot scalable_lock_init.nextindex = (0 : Fin MAX_THREADS) ∧
        scalable_lock_init.haslock (acquire_slot scalable_lock_init.nextindex) = true) ∧
    (∀ (f : Fin MAX_THREADS → Bool) (my : Fin MAX_THREADS),
        scalable_lock_release f my (my + 1) = true) ∧
    (∀ my : Fin MAX_THREADS, my + 1 ≠ my) ∧
    (∀ (f : Fin MAX_THREADS → Bool) (my : Fin MAX_THREADS),
        scalable_lock_release f my my = f my) := by
  refine ⟨fun n => ⟨rfl, rfl⟩, ?_, ⟨rfl, rfl⟩, ?_, by decide, ?_⟩
  · intro n0 i h
    rw [acquire_nextindex_iterate i n0 h]
    show ((n0 + i) % 2 ^ 32) % MAX_THREADS = (n0 + i) % MAX_THREADS
    exact Nat.mod_mod_of_dvd _ ⟨268435456, by norm_num⟩
  · intro f my
    simp [scalable_lock_release]
  · intro f my
    have hne : my ≠ my + 1 := by
      revert my
      decide
    exact Function.update_noteq hne _ _

/-- Witness for C3: a rotation instance with the side condition discharged. -/
theorem scalable_lock_protocol_witness :
    (0 : Nat) < 2 ^ 32 ∧
    (acquire_slot (acquire_nextindex^[17] 0)).val = 17 % MAX_THREADS :=
  ⟨by norm_num, scalable_lock_protocol.2.1 0 17 (by norm_num)⟩

/-! ## Work items and the work queue (lines 102-136) -/

/-- One work item (`struct _osd_work_item`, lines 126-136).  Items are
identified by their index into the owning queue's backing store, and `next`
holds the index of the next item (`none` = NULL).  `event` is `none` while no
per-item event has been allocated, `some b` when one exists with signalled
state `b`.  `eventAllocs` instruments the number of `osd_event_alloc` calls
made for this item (line 543). -/
structure OsdWorkItem where
  next : Option Nat
  callback : Int → Int
  param : Int
  result : Option Int
  event : Option Bool
  flags : Nat
  done : Bool
  eventAllocs : Nat

instance : Inhabited OsdWorkItem :=
  ⟨⟨none, fun _ => 0, 0, none, none, 0, false, 0⟩⟩

/-- The queue's `tailptr` (`osd_work_item ** volatile`, line 106): it points
either at the queue's own `list` field, at the `next` field of item `id`, or —
after a zero-item submission — at the `itemlist` local variable of an already
finished `osd_work_item_queue_multiple` call frame (line 491 executed with an
empty local chain), a dangling pointer through which later writes are lost. -/
inductive TailPtr where
  | listHead : TailPtr
  | itemNext : Nat → TailPtr
  | localChainVar : TailPtr
deriving DecidableEq

/-- The work queue (`struct _osd_work_queue`, lines 102-123).  `arr` is the
backing store of all items ever allocated for this queue (a fresh `malloc` is
modelled by appending); `doneevent` is the signalled state of the manual-reset
done event.  Worker wake events and the `exiting`/`livethreads` bookkeeping
only matter to the OS scheduler and are not part of the sequential state. -/
structure OsdWorkQueue where
  arr : List OsdWorkItem
  list : Option Nat
  tailptr : TailPtr
  free : Option Nat
  items : Int
  waiting : Bool
  threads : Nat
  flags : Nat
  doneevent : Bool

/-- Read item `id` (a C pointer dereference; out-of-store ids are undefined
behaviour in C and give the placeholder item here). -/
def getItemD (q : OsdWorkQueue) (id : Nat) : OsdWorkItem :=
  (q.arr[id]?).getD default

/-- Overwrite item `id` in the backing store. -/
def setItem (q : OsdWorkQueue) (id : Nat) (it : OsdWorkItem) : OsdWorkQueue :=
  { q with arr := q.arr.set id it }

/-- Write the pointer value `v` through `q.tailptr`
(`*queue->tailptr = itemlist`, line 490).  A write through the dangling
`localChainVar` pointer lands in a dead stack frame and is invisible in the
queue state. -/
def writeThroughTailptr (q : OsdWorkQueue) (v : Option Nat) : OsdWorkQueue :=
  match q.tailptr with
  | TailPtr.listHead => { q with list := v }
  | TailPtr.itemNext id => setItem q id { getItemD q id with next := v }
  | TailPtr.localChainVar => q

/-- Modelled from the spec: the platform tick rate `osd_ticks_per_second`
(external primitive, §6); only used as a timeout magnitude. -/
def osd_ticks_per_second : Int := 1000000

/-- The dequeue step of `worker_thread_process` (lines 684-696), performed
under the scalable lock: pop the head of the pending list, and when the list
became empty point `tailptr` back at the list head. -/
def queue_pop (q : OsdWorkQueue) : Option Nat × OsdWorkQueue :=
  match q.list with
  | none => (none, q)
  | some id =>
    let nxt := (getItemD q id).next
    let q1 := { q with list := nxt }
    let q2 := if nxt = none then { q1 with tailptr := TailPtr.listHead } else q1
    (some id, q2)

/-- `osd_work_item_wait` (lines 535-561).  The event allocation of line 543
succeeds in the model (so the spin fallback of lines 548-553 is not taken),
and with no concurrent workers the blocking wait of line 557 expires, so the
function returns the item's `done` flag. -/
def osd_work_item_wait (q : OsdWorkQueue) (id : Nat) (timeout : Int) :
    Bool × OsdWorkQueue :=
  let it := getItemD q id
  if it.done then (true, q)
  else
    let it1 := if it.event = none
      then { it with event := some false, eventAllocs := it.eventAllocs + 1 }
      else { it with event := some false }
    let q1 := setItem q id it1
    (it1.done, q1)

/-- `osd_work_item_release` (lines 578-591): wait (up to ≈100 s) for
completion, then push the item onto the owning queue's free list. -/
def osd_work_item_release (q : OsdWorkQueue) (id : Nat) : OsdWorkQueue :=
  let q1 := (osd_work_item_wait q id (100 * osd_ticks_per_second)).2
  let it := getItemD q1 id
  let q2 := setItem q1 id { it with next := q1.free }
  { q2 with free := some id }

/-- The completion path of `worker_thread_process` for one dequeued item
(lines 699-715): run the callback into `result`, decrement `items`, set
`done`, then either auto-release the item or signal its event if it has
one. -/
def complete_item (q : OsdWorkQueue) (id : Nat) : OsdWorkQueue :=
  let it := getItemD q id
  let it1 := { it with result := some (it.callback it.param), done := true }
  let q1 := setItem q id it1
  let q2 := { q1 with items := q1.items - 1 }
  if it1.flags &&& WORK_ITEM_FLAG_AUTO_RELEASE ≠ 0 then
    osd_work_item_release q2 id
  else if it1.event.isSome then
    setItem q2 id { it1 with event := some true }
  else q2

/-- The drain loop of `worker_thread_process` (lines 678-721) with an explicit
iteration bound: the C loop runs while `items != 0`, and in the sequential
states considered here `items` equals the pending-list length, so one unit of
fuel per pending item reaches the loop exit. -/
def worker_inner : Nat → OsdWorkQueue → OsdWorkQueue
  | 0, q => q
  | fuel + 1, q =>
    if q.items ≠ 0 then
      match queue_pop q with
      | (none, q1) => worker_inner fuel q1
      | (some id, q1) => worker_inner fuel (complete_item q1 id)
    else q

/-- `worker_thread_process` (lines 673-731): drain everything, then signal
`doneevent` if a waiter is registered (lines 724-728). -/
def worker_thread_process (q : OsdWorkQueue) : OsdWorkQueue :=
  let q1 := worker_inner q.items.toNat q
  if q1.waiting then { q1 with doneevent := true } else q1

/-! ## Submission (lines 445-528) -/

/-- Intermediate state of the chain-building loop of
`osd_work_item_queue_multiple` (lines 452-486): the queue so far, the running
`parambase`, the local chain head `itemlist`, the local tail pointer
`item_tailptr` (`none` while it still points at the local `itemlist`
variable, `some id` once it points at `arr[id].next`), the ghost list of chain
item ids in order, the number of fresh `malloc` calls made, and whether a
`malloc` failed (triggering the early `return NULL` of line 469). -/
structure BuildSt where
  q : OsdWorkQueue
  base : Int
  itemlist : Option Nat
  item_tailptr : Option Nat
  ids : List Nat
  mallocs : Nat
  failed : Bool

/-- The per-item fill-in of lines 475-480.  `event`, `eventAllocs` and the
queue back-reference are not touched: a recycled item keeps its lazily
allocated event. -/
def fill_item (it : OsdWorkItem) (cb : Int → Int) (param : Int) (flags : Nat) :
    OsdWorkItem :=
  { it with
    next := none
    callback := cb
    param := param
    result := none
    flags := flags
    done := false }

/-- A freshly `malloc`ed item after the initialisation of lines 470-471:
`event = NULL` and the back-reference set; every other field is garbage until
the fill-in and gets a placeholder value. -/
def fresh_item : OsdWorkItem :=
  { next := none
    callback := fun _ => 0
    param := 0
    result := none
    event := none
    flags := 0
    done := false
    eventAllocs := 0 }

/-- Append the freshly filled item `id` to the local chain
(`*item_tailptr = item; item_tailptr = &item->next;` and the `parambase`
advance, lines 483-485). -/
def chain_append (st : BuildSt) (id : Nat) (stp : Int) : BuildSt :=
  { st with
    q :=
      (match st.item_tailptr with
        | none => st.q
        | some tid => setItem st.q tid { getItemD st.q tid with next := some id })
    itemlist :=
      (match st.item_tailptr with
        | none => some id
        | some _ => st.itemlist)
    item_tailptr := some id
    ids := st.ids ++ [id]
    base := st.base + stp }

/-- The chain-building loop of lines 453-486, one recursive call per
iteration: pop the free list head (lines 458-461) or `malloc` a fresh item
(lines 465-472, with `canAlloc i` telling whether the `i`-th `malloc`
succeeds), fill it in and append it to the local chain. -/
def submit_build (cb : Int → Int) (stp : Int) (flags : Nat)
    (canAlloc : Nat → Bool) : Nat → BuildSt → BuildSt
  | 0, st => st
  | n + 1, st =>
    match st.q.free with
    | some fid =>
      let q1 := { st.q with free := (getItemD st.q fid).next }
      let q2 := setItem q1 fid (fill_item (getItemD q1 fid) cb st.base flags)
      submit_build cb stp flags canAlloc n (chain_append { st with q := q2 } fid stp)
    | none =>
      if canAlloc st.mallocs then
        let fid := st.q.arr.length
        let q1 := { st.q with arr := st.q.arr ++ [fresh_item] }
        let q2 := setItem q1 fid (fill_item (getItemD q1 fid) cb st.base flags)
        submit_build cb stp flags canAlloc n
          (chain_append { st with q := q2, mallocs := st.mallocs + 1 } fid stp)
      else { st with failed := true }

/-- `osd_work_item_queue_multiple` (lines 445-528).  On a failed item
allocation the C code returns NULL at once (line 469), with the free-list pops
and fresh allocations made so far already applied to the queue.  Otherwise the
local chain is spliced onto the queue tail under the scalable lock (lines
489-492), `items` is bumped (line 495), idle workers are woken (a signal on
per-worker events, invisible in this state), a zero-thread queue is drained
inline on the caller (lines 522-523), and the first item is returned unless
the items are auto-release (line 527). -/
def osd_work_item_queue_multiple (q : OsdWorkQueue) (cb : Int → Int)
    (numitems : Int) (parambase paramstep : Int) (flags : Nat)
    (canAlloc : Nat → Bool) : Option Nat × OsdWorkQueue :=
  let st := submit_build cb paramstep flags canAlloc numitems.toNat
    { q := q
      base := parambase
      itemlist := none
      item_tailptr := none
      ids := []
      mallocs := 0
      failed := false }
  if st.failed then (none, st.q)
  else
    let q1 := writeThroughTailptr st.q st.itemlist
    let q2 := { q1 with
      tailptr :=
        (match st.item_tailptr with
          | none => TailPtr.localChainVar
          | some id => TailPtr.itemNext id) }
    let q3 := { q2 with items := q2.items + numitems }
    let q4 := if q3.threads = 0 then worker_thread_process q3 else q3
    (if flags &&& WORK_ITEM_FLAG_AUTO_RELEASE ≠ 0 then none else st.itemlist, q4)

/-! ## Waiting for drain (lines 309-344) -/

/-- Externally visible steps taken by `osd_work_queue_wait`. -/
inductive WaitAction where
  | resetDoneEvent : WaitAction
  | setWaiting : WaitAction
  | blockOnDoneEvent : WaitAction
  | clearWaiting : WaitAction
  | helpProcess : WaitAction
deriving DecidableEq

/-- `osd_work_queue_wait` (lines 309-344).  `queue->items` is volatile and
concurrent workers may change it between reads: `itemsAtRecheck` is the value
the double-check of line 336 observes, `itemsAfterBlock` the value seen after
the blocking wait of line 338 returns.  Returns the C return value, the final
queue state, and the list of externally visible steps in order. -/
def osd_work_queue_wait (q : OsdWorkQueue) (timeout : Int)
    (itemsAtRecheck itemsAfterBlock : Int) :
    Bool × OsdWorkQueue × List WaitAction :=
  if q.threads = 0 then (true, q, [])
  else if q.items = 0 then (true, q, [])
  else if q.flags &&& WORK_QUEUE_FLAG_MULTI ≠ 0 then
    (true, worker_thread_process q, [WaitAction.helpProcess])
  else
    let q1 := { q with doneevent := false }
    let q2 := { q1 with waiting := true, items := itemsAtRecheck }
    if q2.items ≠ 0 then
      let q3 := { q2 with items := itemsAfterBlock }
      let q4 := { q3 with waiting := false }
      ((q4.items == 0), q4,
        [WaitAction.resetDoneEvent, WaitAction.setWaiting,
          WaitAction.blockOnDoneEvent, WaitAction.clearWaiting])
    else
      let q4 := { q2 with waiting := false }
      ((q4.items == 0), q4,
        [WaitAction.resetDoneEvent, WaitAction.setWaiting, WaitAction.clearWaiting])

/-! ## Completion-effect ordering (lines 699-715) -/

/-- One externally visible effect of completing an item. -/
inductive CompEffect where
  | writeResult : Int → CompEffect
  | decItems : CompEffect
  | setDone : CompEffect
  | pushFree : CompEffect
  | signalEvent : CompEffect
deriving DecidableEq

/-- The effects `worker_thread_process` performs for one dequeued item, in
program order (lines 699-715): store the callback's return value into
`result` (line 702), atomically decrement `items` (line 703), set `done`
(line 704), then either push the item back onto the free list (auto-release,
lines 707-708) or signal its event when it has one (lines 711-715). -/
def completion_effects (it : OsdWorkItem) : List CompEffect :=
  [CompEffect.writeResult (it.callback it.param), CompEffect.decItems,
    CompEffect.setDone] ++
    (if it.flags &&& WORK_ITEM_FLAG_AUTO_RELEASE ≠ 0 then [CompEffect.pushFree]
      else if it.event.isSome then [CompEffect.signalEvent] else [])

/-- Observer state for the completion effects of one item. -/
structure ItemObs where
  result : Option Int
  done : Bool
  items : Int
  eventSignalled : Bool

/-- Interpret one completion effect on the observer state. -/
def applyCompEffect (s : ItemObs) : CompEffect → ItemObs
  | CompEffect.writeResult v => { s with result := some v }
  | CompEffect.decItems => { s with items := s.items - 1 }
  | CompEffect.setDone => { s with done := true }
  | CompEffect.pushFree => s
  | CompEffect.signalEvent => { s with eventSignalled := true }

/-- Interpret a list of completion effects from left to right. -/
def runCompEffects (s : ItemObs) (l : List CompEffect) : ItemObs :=
  l.foldl applyCompEffect s

/-- **C4.** Completion ordering: for every dequeued item the effect sequence
starts with `result` write, then the `items` decrement, then `done`; an event
signal can only sit at position 3 (after `done`) and only for a
non-auto-release item that has an event; along every prefix of the effect
sequence, whenever `done` is observed true the callback's return value is
already in `result`; `done` is monotone under every effect; and the full
sequence ends with `done = true`. -/
theorem completion_effect_order (it : OsdWorkItem) (s0 : ItemObs)
    (h0 : s0.done = false) :
    ((completion_effects it).take 3 =
      [CompEffect.writeResult (it.callback it.param), CompEffect.decItems,
        CompEffect.setDone]) ∧
    (∀ k, (completion_effects it)[k]? = some CompEffect.signalEvent →
      k = 3 ∧ it.flags &&& WORK_ITEM_FLAG_AUTO_RELEASE = 0 ∧
        it.event.isSome = true) ∧
    (∀ k, (runCompEffects s0 ((completion_effects it).take k)).done = true →
      (runCompEffects s0 ((completion_effects it).take k)).result =
        some (it.callback it.param)) ∧
    (∀ (s : ItemObs) (e : CompEffect), s.done = true →
      (applyCompEffect s e).done = true) ∧
    ((runCompEffects s0 (completion_effects it)).done = true) := by
  refine ⟨?_, ?_, ?_, ?_, ?_⟩
  · simp only [completion_effects]
    split_ifs <;> rfl
  · intro k hk
    simp only [completion_effects] at hk
    split_ifs at hk with h1 h2
    · rcases k with _ | _ | _ | _ | k <;> simp_all
    · rcases k with _ | _ | _ | _ | k <;> simp_all
    · rcases k with _ | _ | _ | k <;> simp_all
  · intro k hk
    simp only [completion_effects] at hk ⊢
    split_ifs at hk ⊢ with h1 h2
    · rcases k with _ | _ | _ | k <;>
        simp_all [runCompEffects, applyCompEffect] <;>
        rcases k with _ | k <;> simp_all [runCompEffects, applyCompEffect]
    · rcases k with _ | _ | _ | k <;>
        simp_all [runCompEffects, applyCompEffect] <;>
        rcases k with _ | k <;> simp_all [runCompEffects, applyCompEffect]
    · rcases k with _ | _ | _ | k <;> simp_all [runCompEffects, applyCompEffect]
  · intro s e hs
    cases e <;> simp [applyCompEffect, hs]
  · simp only [completion_effects]
    split_ifs <;> simp [runCompEffects, applyCompEffect]

/-- A sample non-auto-release item with an allocated event. -/
def sampleItem : OsdWorkItem :=
  { fresh_item with callback := fun x => x * x, param := 7, event := some false }

/-- A sample initial observer state. -/
def sampleObs : ItemObs :=
  { result := none, done := false, items := 1, eventSignalled := false }

/-- Witness for C4 at a concrete item and observer state. -/
theorem completion_effect_order_witness :
    (runCompEffects sampleObs (completion_effects sampleItem)).done = true :=
  (completion_effect_order sampleItem sampleObs rfl).2.2.2.2

/-! ## Processor count and worker count (lines 216-258, 598-610) -/

/-- The whitespace characters `sscanf`'s `%d` conversion skips. -/
def isCSpace (c : Char) : Bool :=
  c = ' ' || c = '\t' || c = '\n' || c = '\x0b' || c = '\x0c' || c = '\r'

/-- Value of a digit string. -/
def digitsVal (ds : List Char) : Nat :=
  ds.foldl (fun acc c => acc * 10 + (c.toNat - '0'.toNat)) 0

/-- `sscanf(s, "%d", &n) == 1` modelled as a prefix-integer parse: skip
whitespace, take an optional sign and then at least one digit; trailing text
is ignored. -/
def sscanf_int (s : String) : Option Int :=
  let cs := s.toList.dropWhile isCSpace
  match cs with
  | '-' :: rest =>
    let ds := rest.takeWhile Char.isDigit
    if ds.isEmpty then none else some (-(digitsVal ds : Int))
  | '+' :: rest =>
    let ds := rest.takeWhile Char.isDigit
    if ds.isEmpty then none else some ((digitsVal ds : Int))
  | _ =>
    let ds := cs.takeWhile Char.isDigit
    if ds.isEmpty then none else some ((digitsVal ds : Int))

/-- `effective_num_processors` (lines 598-610): use the `OSDPROCESSORS`
environment value when it is present and parses to a positive integer,
otherwise the platform-probed count. -/
def effective_num_processors (osdprocessors : Option String)
    (osd_num_processors : Int) : Int :=
  match osdprocessors with
  | some s =>
    match sscanf_int s with
    | some n => if n > 0 then n else osd_num_processors
    | none => osd_num_processors
  | none => osd_num_processors

/-- The worker-count computation of `osd_work_queue_alloc` (lines 240-250):
on 1 processor, 1 worker for I/O queues and 0 otherwise; on more, `n - 1`
workers for MULTI queues and 1 otherwise; the value is stored into the
unsigned 32-bit `queue->threads` and clamped to `MAX_THREADS`. -/
def queue_threads_for (numprocs : Int) (flags : Nat) : Nat :=
  let t : Int :=
    if numprocs = 1 then (if flags &&& WORK_QUEUE_FLAG_IOBIT ≠ 0 then 1 else 0)
    else (if flags &&& WORK_QUEUE_FLAG_MULTI ≠ 0 then numprocs - 1 else 1)
  min ((t % (2 ^ 32)).toNat) MAX_THREADS

/-- **C7.** Worker-count policy: the effective processor count is the parsed
`OSDPROCESSORS` value when present and positive and the probed count
otherwise; 1 processor gives 1 worker for I/O queues and 0 otherwise; `n > 1`
processors give `n - 1` workers (clamped to 16) for MULTI queues and 1 worker
otherwise. -/
theorem queue_alloc_thread_count :
    (∀ (s : String) (probed n : Int), sscanf_int s = some n → 0 < n →
      effective_num_processors (some s) probed = n) ∧
    (∀ (s : String) (probed : Int), (∀ n, sscanf_int s = some n → n ≤ 0) →
      effective_num_processors (some s) probed = probed) ∧
    (∀ probed : Int, effective_num_processors none probed = probed) ∧
    (∀ flags : Nat, queue_threads_for 1 flags =
      (if flags &&& WORK_QUEUE_FLAG_IOBIT ≠ 0 then 1 else 0)) ∧
    (∀ (n : Int) (flags : Nat), 1 < n → n < 2 ^ 31 →
      queue_threads_for n flags =
        (if flags &&& WORK_QUEUE_FLAG_MULTI ≠ 0
          then min (n - 1).toNat MAX_THREADS else 1)) := by
  refine ⟨?_, ?_, ?_, ?_, ?_⟩
  · intro s probed n hp hpos
    simp [effective_num_processors, hp, hpos]
  · intro s probed hnp
    cases hp : sscanf_int s with
    | none => simp [effective_num_processors, hp]
    | some n =>
      have hle := hnp n hp
      have hng : ¬ (n > 0) := by omega
      simp [effective_num_processors, hp, hng]
  · intro probed
    rfl
  · intro flags
    unfold queue_threads_for
    split_ifs <;> first | rfl | omega
  · intro n flags h1 h2
    unfold queue_threads_for
    have hne : ¬ n = 1 := by omega
    rw [if_neg hne]
    split_ifs with hm
    · show ((n - 1) % 2 ^ 32).toNat ⊓ MAX_THREADS = min (n - 1).toNat MAX_THREADS
      rw [Int.emod_eq_of_lt (by omega) (by omega)]
    · show (((1 : Int) % 2 ^ 32).toNat ⊓ MAX_THREADS) = 1
      decide

/-- Witness for C7: `OSDPROCESSORS=3` overrides a probed count of 8, and a
5-processor MULTI queue gets 4 workers. -/
theorem queue_alloc_thread_count_witness :
    effective_num_processors (some "3") 8 = 3 ∧
    queue_threads_for 5 WORK_QUEUE_FLAG_MULTI =
      (if WORK_QUEUE_FLAG_MULTI &&& WORK_QUEUE_FLAG_MULTI ≠ 0
        then min ((5 : Int) - 1).toNat MAX_THREADS else 1) :=
  ⟨queue_alloc_thread_count.1 "3" 8 3 (by decide) (by norm_num),
    queue_alloc_thread_count.2.2.2.2 5 WORK_QUEUE_FLAG_MULTI (by norm_num) (by norm_num)⟩

/-! ## Allocation-failure control flow of osd_work_queue_alloc (lines 216-291) -/

/-- The allocation points of `osd_work_queue_alloc`, in program order. -/
inductive AllocPoint where
  | queueMem : AllocPoint
  | doneEvent : AllocPoint
  | threadArray : AllocPoint
  | wakeEvent : Nat → AllocPoint
  | threadCreate : Nat → AllocPoint
deriving DecidableEq

/-- A partially constructed queue as `osd_work_queue_free` sees it.  The
`memset` of line 226 zeroes every field first, so the NULL checks in the free
routine distinguish exactly these resources. -/
structure PQueue where
  threads : Nat
  hasDoneEvent : Bool
  hasThreadArray : Bool
  wakeEvents : Nat
  threadsCreated : Nat
deriving DecidableEq

/-- `osd_work_queue_free` (lines 351-438) as called from the error path of
`osd_work_queue_alloc` (line 289): its very first statement reads
`queue->threads` (line 354), so a NULL queue argument is a null-pointer
dereference (modelled as `Except.error`); with a non-null partially
constructed queue, every allocated resource sits behind a NULL check and the
teardown returns normally. -/
def osd_work_queue_free_model : Option PQueue → Except Unit Unit
  | none => Except.error ()
  | some _ => Except.ok ()

/-- The error path of `osd_work_queue_alloc` (lines 288-290):
`osd_work_queue_free(queue); return NULL;`. -/
def alloc_error_path (pq : Option PQueue) : Except Unit (Option PQueue) :=
  match osd_work_queue_free_model pq with
  | Except.error e => Except.error e
  | Except.ok _ => Except.ok none

/-- The per-worker allocation loop of `osd_work_queue_alloc` (lines 259-282):
worker `i` needs its auto-reset wake event and then its thread; either failure
takes `goto error` with the partial queue built so far. -/
def alloc_workers (ok : AllocPoint → Bool) (total : Nat) :
    Nat → PQueue → Except Unit (Option PQueue)
  | 0, pq => Except.ok (some pq)
  | n + 1, pq =>
    let i := total - (n + 1)
    if ok (AllocPoint.wakeEvent i) then
      let pq1 := { pq with wakeEvents := pq.wakeEvents + 1 }
      if ok (AllocPoint.threadCreate i) then
        alloc_workers ok total n { pq1 with threadsCreated := pq1.threadsCreated + 1 }
      else alloc_error_path (some pq1)
    else alloc_error_path (some pq)

/-- The allocation control flow of `osd_work_queue_alloc` (lines 216-291).
`ok` says which allocation points succeed; any failure branches to the error
path, which calls `osd_work_queue_free(queue)` — with `queue` still NULL when
the very first `malloc` of line 223 failed. -/
def osd_work_queue_alloc_model (flags : Nat) (numprocs : Int)
    (ok : AllocPoint → Bool) : Except Unit (Option PQueue) :=
  if ok AllocPoint.queueMem then
    if ok AllocPoint.doneEvent then
      let threads := queue_threads_for numprocs flags
      if ok AllocPoint.threadArray then
        alloc_workers ok threads threads
          { threads := threads
            hasDoneEvent := true
            hasThreadArray := true
            wakeEvents := 0
            threadsCreated := 0 }
      else
        alloc_error_path (some
          { threads := threads
            hasDoneEvent := true
            hasThreadArray := false
            wakeEvents := 0
            threadsCreated := 0 })
    else
      alloc_error_path (some
        { threads := 0
          hasDoneEvent := false
          hasThreadArray := false
          wakeEvents := 0
          threadsCreated := 0 })
  else
    alloc_error_path none

/-- A queue with exactly one recycled item on its free list (and a worker, so
submission does not drain inline). -/
def leakQueue : OsdWorkQueue :=
  { arr := [fresh_item]
    list := none
    tailptr := TailPtr.listHead
    free := some 0
    items := 0
    waiting := false
    threads := 1
    flags := 0
    doneevent := true }

/-- **C8.** (code bug) Two allocation-failure paths contradict the clean-
teardown claim.  (1) When the very first `malloc(sizeof(*queue))` of line 223
fails, the error path calls `osd_work_queue_free(NULL)`, whose first statement
dereferences `queue->threads` (line 354) — a crash, not a clean NULL return.
(2) When `osd_work_item_queue_multiple` asks for two items on a queue whose
free list holds one recycled item and the `malloc` for the second item fails,
it returns NULL at once (line 469): the recycled item has already been popped
off the free list and linked into the abandoned local chain, so afterwards it
sits on neither the free list nor the pending list and no handle refers to it
— it is leaked. -/
theorem alloc_failure_bug :
    osd_work_queue_alloc_model 0 2 (fun _ => false) = Except.error () ∧
    (osd_work_item_queue_multiple leakQueue (fun x => x) 2 0 1 0
      (fun _ => false)).1 = none ∧
    (osd_work_item_queue_multiple leakQueue (fun x => x) 2 0 1 0
      (fun _ => false)).2.free = none ∧
    (osd_work_item_queue_multiple leakQueue (fun x => x) 2 0 1 0
      (fun _ => false)).2.list = none ∧
    (osd_work_item_queue_multiple leakQueue (fun x => x) 2 0 1 0
      (fun _ => false)).2.arr.length = 1 :=
  ⟨rfl, rfl, rfl, rfl, rfl⟩

/-- A freshly allocated empty queue with one worker. -/
def emptyQueue : OsdWorkQueue :=
  { arr := []
    list := none
    tailptr := TailPtr.listHead
    free := none
    items := 0
    waiting := false
    threads := 1
    flags := 0
    doneevent := true }

/-- **C9.** (code bug) The tail-pointer invariant survives non-empty
submissions and drain pops, but a zero-item submission executes
`queue->tailptr = item_tailptr` (line 491) with `item_tailptr` still equal to
`&itemlist`, the address of a local variable of the returning call frame: on
return the pending list is empty yet `tailptr` no longer points at
`list_head`, it dangles into dead stack. -/
theorem tailptr_zero_item_submit_bug :
    (osd_work_item_queue_multiple emptyQueue (fun x => x) 0 0 0 0
      (fun _ => true)).2.list = none ∧
    (osd_work_item_queue_multiple emptyQueue (fun x => x) 0 0 0 0
      (fun _ => true)).2.tailptr = TailPtr.localChainVar ∧
    TailPtr.localChainVar ≠ TailPtr.listHead :=
  ⟨rfl, rfl, by decide⟩

/-- **C6.** `osd_work_queue_wait` behaviour: with no workers, or with no
pending items, it returns true at once without touching the queue; a MULTI
queue with pending items never blocks — the caller runs the worker loop
itself and true is returned; otherwise the function resets `doneevent`, sets
`waiting`, re-checks `items` before blocking (no block step when the re-check
already sees zero), clears `waiting`, and returns whether `items` is zero. -/
theorem queue_wait_behaviour (q : OsdWorkQueue) (timeout ir ib : Int) :
    (q.threads = 0 → osd_work_queue_wait q timeout ir ib = (true, q, [])) ∧
    (q.items = 0 → osd_work_queue_wait q timeout ir ib = (true, q, [])) ∧
    (q.threads ≠ 0 → q.items ≠ 0 → q.flags &&& WORK_QUEUE_FLAG_MULTI ≠ 0 →
      osd_work_queue_wait q timeout ir ib =
        (true, worker_thread_process q, [WaitAction.helpProcess])) ∧
    (q.threads ≠ 0 → q.items ≠ 0 → q.flags &&& WORK_QUEUE_FLAG_MULTI = 0 →
      ((osd_work_queue_wait q timeout ir ib).2.1.waiting = false ∧
        (osd_work_queue_wait q timeout ir ib).2.2 =
          [WaitAction.resetDoneEvent, WaitAction.setWaiting] ++
            (if ir ≠ 0 then [WaitAction.blockOnDoneEvent] else []) ++
            [WaitAction.clearWaiting] ∧
        (osd_work_queue_wait q timeout ir ib).2.1.items =
          (if ir ≠ 0 then ib else ir) ∧
        (osd_work_queue_wait q timeout ir ib).1 =
          ((osd_work_queue_wait q timeout ir ib).2.1.items == 0))) := by
  refine ⟨?_, ?_, ?_, ?_⟩
  · intro h0
    simp [osd_work_queue_wait, h0]
  · intro h0
    simp [osd_work_queue_wait, h0]
  · intro h0 h1 hm
    simp [osd_work_queue_wait, h0, h1, hm]
  · intro h0 h1 hm
    by_cases hir : ir ≠ 0 <;>
      simp [osd_work_queue_wait, h0, h1, hm, hir]

/-- A MULTI queue with one worker and one pending item. -/
def sampleWaitQueue : OsdWorkQueue :=
  { arr := [{ fresh_item with callback := fun x => x + 1, param := 3 }]
    list := some 0
    tailptr := TailPtr.itemNext 0
    free := none
    items := 1
    waiting := false
    threads := 1
    flags := WORK_QUEUE_FLAG_MULTI
    doneevent := true }

/-- Witness for C6: the MULTI help-out branch at a concrete queue. -/
theorem queue_wait_behaviour_witness :
    osd_work_queue_wait sampleWaitQueue 5 0 0 =
      (true, worker_thread_process sampleWaitQueue, [WaitAction.helpProcess]) :=
  (queue_wait_behaviour sampleWaitQueue 5 0 0).2.2.1
    (by decide) (by decide) (by decide)

/-! ## Linked-list chains through the backing store -/

/-- `ChainSeg arr head ids stop`: following `next` pointers from `head`
through the backing store `arr` visits exactly the items `ids` in order, and
the `next` field of the last one equals `stop` (for `ids = []`, `head = stop`
directly). -/
inductive ChainSeg (arr : List OsdWorkItem) :
    Option Nat → List Nat → Option Nat → Prop where
  | nil (x : Option Nat) : ChainSeg arr x [] x
  | cons {id : Nat} {it : OsdWorkItem} {ids : List Nat} {x : Option Nat}
      (h : arr[id]? = some it) (hn : ChainSeg arr it.next ids x) :
      ChainSeg arr (some id) (id :: ids) x

lemma ChainSeg.append {arr : List OsdWorkItem} {h1 m x : Option Nat}
    {xs ys : List Nat} (ha : ChainSeg arr h1 xs m) (hb : ChainSeg arr m ys x) :
    ChainSeg arr h1 (xs ++ ys) x := by
  induction ha with
  | nil y => simpa using hb
  | cons h hn ih => exact ChainSeg.cons h (ih hb)

lemma ChainSeg.mem_lt {arr : List OsdWorkItem} {h0 x : Option Nat}
    {ids : List Nat} (hc : ChainSeg arr h0 ids x) :
    ∀ id ∈ ids, id < arr.length := by
  induction hc with
  | nil y => intro id h; cases h
  | cons h hn ih =>
    intro j hj
    rcases List.mem_cons.mp hj with he | hm
    · subst he
      exact (List.getElem?_eq_some.mp h).1
    · exact ih j hm

lemma ChainSeg.frame {arr arr' : List OsdWorkItem} {h0 x : Option Nat}
    {ids : List Nat} (hc : ChainSeg arr h0 ids x)
    (hf : ∀ id ∈ ids, ∃ it it', arr[id]? = some it ∧ arr'[id]? = some it' ∧
      it'.next = it.next) :
    ChainSeg arr' h0 ids x := by
  induction hc with
  | nil y => exact ChainSeg.nil y
  | cons h hn ih =>
    rename_i id it ids' x'
    obtain ⟨jt, jt', hjt, hjt', hnx⟩ := hf id (by simp)
    have hji : jt = it := by
      rw [h] at hjt
      exact (Option.some.inj hjt).symm
    subst hji
    refine ChainSeg.cons hjt' ?_
    rw [hnx]
    exact ih (fun j hj => hf j (by simp [hj]))

lemma ChainSeg.nil_eq {arr : List OsdWorkItem} {h0 x : Option Nat}
    (hc : ChainSeg arr h0 [] x) : h0 = x := by
  cases hc
  rfl

lemma ChainSeg.snoc_decomp {arr : List OsdWorkItem} {h0 x : Option Nat}
    {ts : List Nat} {t : Nat} (hc : ChainSeg arr h0 (ts ++ [t]) x) :
    ∃ it, ChainSeg arr h0 ts (some t) ∧ arr[t]? = some it ∧ it.next = x := by
  induction ts generalizing h0 with
  | nil =>
    cases hc with
    | cons h hn => exact ⟨_, ChainSeg.nil _, h, ChainSeg.nil_eq hn⟩
  | cons a ts ih =>
    cases hc with
    | cons h hn =>
      obtain ⟨it, hseg, hit, hnx⟩ := ih hn
      exact ⟨it, ChainSeg.cons h hseg, hit, hnx⟩

lemma ChainSeg.head_some {arr : List OsdWorkItem} {h0 x : Option Nat}
    {id : Nat} {ids : List Nat} (hc : ChainSeg arr h0 (id :: ids) x) :
    h0 = some id := by
  cases hc with
  | cons h hn => rfl

lemma complete_item_eq_auto (q : OsdWorkQueue) (id : Nat) (it0 : OsdWorkItem)
    (h : q.arr[id]? = some it0)
    (hA : it0.flags &&& WORK_ITEM_FLAG_AUTO_RELEASE ≠ 0) :
    complete_item q id =
      { q with
        arr := q.arr.set id
          { it0 with
            result := some (it0.callback it0.param)
            done := true
            next := q.free }
        items := q.items - 1
        free := some id } := by
  have hlt : id < q.arr.length := (List.getElem?_eq_some.mp h).1
  simp [complete_item, osd_work_item_release, osd_work_item_wait, getItemD,
    setItem, h, hA, List.getElem?_set_eq_of_lt, hlt, List.set_set]

lemma complete_item_eq_signal (q : OsdWorkQueue) (id : Nat) (it0 : OsdWorkItem)
    (h : q.arr[id]? = some it0)
    (hA : ¬ it0.flags &&& WORK_ITEM_FLAG_AUTO_RELEASE ≠ 0)
    (hE : it0.event.isSome = true) :
    complete_item q id =
      { q with
        arr := q.arr.set id
          { it0 with
            result := some (it0.callback it0.param)
            done := true
            event := some true }
        items := q.items - 1 } := by
  simp [complete_item, getItemD, setItem, h, hA, hE, List.set_set]

lemma complete_item_eq_plain (q : OsdWorkQueue) (id : Nat) (it0 : OsdWorkItem)
    (h : q.arr[id]? = some it0)
    (hA : ¬ it0.flags &&& WORK_ITEM_FLAG_AUTO_RELEASE ≠ 0)
    (hE : ¬ it0.event.isSome = true) :
    complete_item q id =
      { q with
        arr := q.arr.set id
          { it0 with
            result := some (it0.callback it0.param)
            done := true }
        items := q.items - 1 } := by
  simp [complete_item, getItemD, setItem, h, hA, hE]

lemma complete_item_spec (q : OsdWorkQueue) (id : Nat) (it0 : OsdWorkItem)
    (h : q.arr[id]? = some it0) :
    (complete_item q id).list = q.list ∧
    (complete_item q id).tailptr = q.tailptr ∧
    (complete_item q id).items = q.items - 1 ∧
    (complete_item q id).arr.length = q.arr.length ∧
    (∀ j, j ≠ id → (complete_item q id).arr[j]? = q.arr[j]?) ∧
    (∃ it', (complete_item q id).arr[id]? = some it' ∧
      it'.done = true ∧ it'.result = some (it0.callback it0.param) ∧
      it'.callback = it0.callback ∧ it'.param = it0.param ∧
      it'.flags = it0.flags ∧ it'.event.isSome = it0.event.isSome ∧
      it'.eventAllocs = it0.eventAllocs) := by
  have hlt : id < q.arr.length := (List.getElem?_eq_some.mp h).1
  have hset : ∀ it1 : OsdWorkItem, (q.arr.set id it1)[id]? = some it1 :=
    fun it1 => List.getElem?_set_eq_of_lt it1 hlt
  by_cases hA : it0.flags &&& WORK_ITEM_FLAG_AUTO_RELEASE ≠ 0
  · rw [complete_item_eq_auto q id it0 h hA]
    refine ⟨rfl, rfl, rfl, by simp, ?_, ?_⟩
    · intro j hj
      exact List.getElem?_set_ne (Ne.symm hj)
    · exact ⟨_, hset _, rfl, rfl, rfl, rfl, rfl, rfl, rfl⟩
  · by_cases hE : it0.event.isSome = true
    · rw [complete_item_eq_signal q id it0 h hA hE]
      refine ⟨rfl, rfl, rfl, by simp, ?_, ?_⟩
      · intro j hj
        exact List.getElem?_set_ne (Ne.symm hj)
      · exact ⟨_, hset _, rfl, rfl, rfl, rfl, rfl, hE.symm, rfl⟩
    · rw [complete_item_eq_plain q id it0 h hA hE]
      refine ⟨rfl, rfl, rfl, by simp, ?_, ?_⟩
      · intro j hj
        exact List.getElem?_set_ne (Ne.symm hj)
      · exact ⟨_, hset _, rfl, rfl, rfl, rfl, rfl, rfl, rfl⟩

lemma ChainSeg.cons_inv {arr : List OsdWorkItem} {h0 x : Option Nat}
    {id : Nat} {ids : List Nat} (hc : ChainSeg arr h0 (id :: ids) x) :
    h0 = some id ∧ ∃ it, arr[id]? = some it ∧ ChainSeg arr it.next ids x := by
  cases hc with
  | cons h hn => exact ⟨rfl, _, h, hn⟩

lemma ChainSeg.mem_some {arr : List OsdWorkItem} {h0 x : Option Nat}
    {ids : List Nat} (hc : ChainSeg arr h0 ids x) :
    ∀ id ∈ ids, ∃ it, arr[id]? = some it := by
  induction hc with
  | nil y => intro id h; cases h
  | cons h hn ih =>
    intro j hj
    rcases List.mem_cons.mp hj with he | hm
    · subst he
      exact ⟨_, h⟩
    · exact ih j hm

lemma queue_pop_spec (q : OsdWorkQueue) (id : Nat) (it : OsdWorkItem)
    (hl : q.list = some id) (h : q.arr[id]? = some it) :
    (queue_pop q).1 = some id ∧
    (queue_pop q).2.arr = q.arr ∧
    (queue_pop q).2.list = it.next ∧
    (queue_pop q).2.items = q.items := by
  refine ⟨?_, ?_, ?_, ?_⟩ <;>
    simp only [queue_pop, hl, getItemD, h, Option.getD_some] <;>
    split_ifs <;> rfl

lemma worker_inner_succ_pop (fuel : Nat) (q : OsdWorkQueue) (id : Nat)
    (hne : q.items ≠ 0) (hid : (queue_pop q).1 = some id) :
    worker_inner (fuel + 1) q =
      worker_inner fuel (complete_item (queue_pop q).2 id) := by
  have hq : queue_pop q = (some id, (queue_pop q).2) := by
    cases hqp : queue_pop q with
    | mk a b => simp_all
  simp only [worker_inner]
  rw [if_pos hne, hq]

lemma worker_inner_drains (pids : List Nat) :
    ∀ q : OsdWorkQueue,
      ChainSeg q.arr q.list pids none →
      pids.Nodup →
      q.items = (pids.length : Int) →
      (worker_inner pids.length q).items = 0 ∧
      (worker_inner pids.length q).arr.length = q.arr.length ∧
      (∀ j, j ∉ pids → (worker_inner pids.length q).arr[j]? = q.arr[j]?) ∧
      (∀ k (hk : k < pids.length), ∃ it it',
        q.arr[pids.get ⟨k, hk⟩]? = some it ∧
        (worker_inner pids.length q).arr[pids.get ⟨k, hk⟩]? = some it' ∧
        it'.done = true ∧ it'.result = some (it.callback it.param) ∧
        it'.callback = it.callback ∧ it'.param = it.param) := by
  induction pids with
  | nil =>
    intro q hc hnd hit
    refine ⟨by simpa [worker_inner] using hit, rfl, fun j _ => rfl, ?_⟩
    intro k hk
    exact absurd hk (by simp)
  | cons id rest ih =>
    intro q hc hnd hit
    obtain ⟨hl, it, hita, hrest⟩ := ChainSeg.cons_inv hc
    have hne : q.items ≠ 0 := by
      rw [hit]
      push_cast [List.length_cons]
      omega
    obtain ⟨hp1, hp2, hp3, hp4⟩ := queue_pop_spec q id it hl hita
    have hw := worker_inner_succ_pop rest.length q id hne hp1
    set q2 := (queue_pop q).2 with hq2
    have hq2a : q2.arr[id]? = some it := by
      rw [hp2]
      exact hita
    obtain ⟨hc1, hc2, hc3, hc4, hc5, it', hc6, hc7, hc8, hc9, hc10, hc11, hc12, hc13⟩ :=
      complete_item_spec q2 id it hq2a
    set q3 := complete_item q2 id with hq3
    have hndid : id ∉ rest := (List.nodup_cons.mp hnd).1
    have hndr : rest.Nodup := (List.nodup_cons.mp hnd).2
    have hchain2 : ChainSeg q2.arr it.next rest none := by
      rw [hp2]
      exact hrest
    have hchain3 : ChainSeg q3.arr q3.list rest none := by
      rw [hc1, hp3]
      refine hchain2.frame ?_
      intro j hj
      obtain ⟨jt, hjt⟩ := hchain2.mem_some j hj
      have hjid : j ≠ id := fun he => hndid (he ▸ hj)
      exact ⟨jt, jt, hjt, by rw [hc5 j hjid]; exact hjt, rfl⟩
    have hit3 : q3.items = (rest.length : Int) := by
      rw [hc3, hp4, hit]
      push_cast [List.length_cons]
      ring
    obtain ⟨ihA, ihB, ihC, ihD⟩ := ih q3 hchain3 hndr hit3
    have hwn : worker_inner (id :: rest).length q = worker_inner rest.length q3 := hw
    refine ⟨?_, ?_, ?_, ?_⟩
    · rw [hwn]
      exact ihA
    · rw [hwn, ihB, hc4, hp2]
    · intro j hj
      have hjid : j ≠ id := fun he => hj (he ▸ List.mem_cons_self id rest)
      have hjr : j ∉ rest := fun hm => hj (List.mem_cons_of_mem id hm)
      rw [hwn, ihC j hjr, hc5 j hjid, hp2]
    · intro k hk
      match k, hk with
      | 0, hk =>
        refine ⟨it, it', hita, ?_, hc7, hc8, hc9, hc10⟩
        rw [hwn]
        show (worker_inner rest.length q3).arr[id]? = some it'
        rw [ihC id hndid]
        exact hc6
      | k + 1, hk =>
        have hk' : k < rest.length := by simpa using hk
        obtain ⟨jt, jt', hjt, hjt', hd, hr, hcb, hpm⟩ := ihD k hk'
        have hmem : rest.get ⟨k, hk'⟩ ∈ rest := List.get_mem rest _ _
        have hjid : rest.get ⟨k, hk'⟩ ≠ id := fun he => hndid (he ▸ hmem)
        refine ⟨jt, jt', ?_, ?_, hd, hr, hcb, hpm⟩
        · have hq := hjt
          rw [hc5 _ hjid, hp2] at hq
          show q.arr[(id :: rest).get ⟨k + 1, hk⟩]? = some jt
          simpa using hq
        · rw [hwn]
          show (worker_inner rest.length q3).arr[(id :: rest).get ⟨k + 1, hk⟩]? = some jt'
          simpa using hjt'

lemma ChainSeg.none_inv {arr : List OsdWorkItem} {ids : List Nat}
    {x : Option Nat} (hc : ChainSeg arr none ids x) : ids = [] ∧ x = none := by
  cases hc with
  | nil y => exact ⟨rfl, rfl⟩

lemma nodup_shuffle (pids fr ids : List Nat) (fid : Nat)
    (h : (pids ++ (fid :: fr) ++ ids).Nodup) :
    (pids ++ fr ++ (ids ++ [fid])).Nodup := by
  refine (List.perm_iff_count.mpr ?_).nodup h
  intro a
  simp [List.count_append, List.count_cons]
  ring

lemma nodup_snoc_fresh (pids fr ids : List Nat) (fid : Nat)
    (h : (pids ++ fr ++ ids).Nodup) (hf : fid ∉ pids ++ fr ++ ids) :
    (pids ++ fr ++ (ids ++ [fid])).Nodup := by
  have h2 : ((pids ++ fr ++ ids) ++ [fid]).Nodup := by
    refine List.nodup_append.mpr ⟨h, List.nodup_singleton _, ?_⟩
    intro a ha hb
    rw [List.mem_singleton] at hb
    subst hb
    exact hf ha
  refine (List.perm_iff_count.mpr ?_).nodup h2
  intro a
  simp [List.count_append]

/-- Invariant of the chain-building loop of `osd_work_item_queue_multiple`
(lines 452-486), relating the loop state `st` to the queue `q0` seen at entry:
`base0` is the original `parambase` and `pids` the pending-list ids of `q0`.
The already-built chain `st.ids` carries correctly filled items whose `event`
fields survive recycling; everything outside the chain is untouched. -/
structure BuildInvariant (q0 : OsdWorkQueue) (cb : Int → Int) (stp : Int)
    (flags : Nat) (base0 : Int) (pids : List Nat) (st : BuildSt) : Prop where
  notFailed : st.failed = false
  listEq : st.q.list = q0.list
  tailEq : st.q.tailptr = q0.tailptr
  itemsEq : st.q.items = q0.items
  threadsEq : st.q.threads = q0.threads
  flagsEq : st.q.flags = q0.flags
  waitingEq : st.q.waiting = q0.waiting
  doneEq : st.q.doneevent = q0.doneevent
  lenLe : q0.arr.length ≤ st.q.arr.length
  frame : ∀ j, j < q0.arr.length → j ∉ st.ids → st.q.arr[j]? = q0.arr[j]?
  chain : ChainSeg st.q.arr st.itemlist st.ids none
  tailCorr : (st.ids = [] ∧ st.itemlist = none ∧ st.item_tailptr = none) ∨
    (∃ ts t, st.ids = ts ++ [t] ∧ st.item_tailptr = some t)
  baseEq : st.base = base0 + st.ids.length * stp
  itemFields : ∀ k (hk : k < st.ids.length), ∃ it,
    st.q.arr[st.ids.get ⟨k, hk⟩]? = some it ∧
    it.callback = cb ∧ it.param = base0 + (k : Int) * stp ∧ it.result = none ∧
    it.done = false ∧ it.flags = flags ∧
    (st.ids.get ⟨k, hk⟩ < q0.arr.length →
      it.event = (getItemD q0 (st.ids.get ⟨k, hk⟩)).event ∧
      it.eventAllocs = (getItemD q0 (st.ids.get ⟨k, hk⟩)).eventAllocs) ∧
    (q0.arr.length ≤ st.ids.get ⟨k, hk⟩ → it.event = none ∧ it.eventAllocs = 0)
  pending : ChainSeg st.q.arr st.q.list pids none
  freeChain : ∃ fr, ChainSeg st.q.arr st.q.free fr none ∧
    (∀ j ∈ fr, j < q0.arr.length) ∧
    (pids ++ fr ++ st.ids).Nodup

lemma chain_append_invariant (q0 : OsdWorkQueue) (cb : Int → Int) (stp : Int)
    (flags : Nat) (base0 : Int) (pids : List Nat) (st2 : BuildSt) (fid : Nat)
    (filled : OsdWorkItem)
    (hNF : st2.failed = false)
    (hlist : st2.q.list = q0.list) (htl : st2.q.tailptr = q0.tailptr)
    (hitems : st2.q.items = q0.items) (hthr : st2.q.threads = q0.threads)
    (hfl : st2.q.flags = q0.flags) (hwait : st2.q.waiting = q0.waiting)
    (hdone : st2.q.doneevent = q0.doneevent)
    (hlen : q0.arr.length ≤ st2.q.arr.length)
    (hframe : ∀ j, j < q0.arr.length → j ∉ st2.ids → j ≠ fid →
      st2.q.arr[j]? = q0.arr[j]?)
    (hchain : ChainSeg st2.q.arr st2.itemlist st2.ids none)
    (htail : (st2.ids = [] ∧ st2.itemlist = none ∧ st2.item_tailptr = none) ∨
      (∃ ts t, st2.ids = ts ++ [t] ∧ st2.item_tailptr = some t))
    (hbase : st2.base = base0 + st2.ids.length * stp)
    (hfields : ∀ k (hk : k < st2.ids.length), ∃ it,
      st2.q.arr[st2.ids.get ⟨k, hk⟩]? = some it ∧
      it.callback = cb ∧ it.param = base0 + (k : Int) * stp ∧ it.result = none ∧
      it.done = false ∧ it.flags = flags ∧
      (st2.ids.get ⟨k, hk⟩ < q0.arr.length →
        it.event = (getItemD q0 (st2.ids.get ⟨k, hk⟩)).event ∧
        it.eventAllocs = (getItemD q0 (st2.ids.get ⟨k, hk⟩)).eventAllocs) ∧
      (q0.arr.length ≤ st2.ids.get ⟨k, hk⟩ → it.event = none ∧ it.eventAllocs = 0))
    (hpend : ChainSeg st2.q.arr st2.q.list pids none)
    (hfr : ∃ fr, ChainSeg st2.q.arr st2.q.free fr none ∧
      (∀ j ∈ fr, j < q0.arr.length) ∧
      (pids ++ fr ++ (st2.ids ++ [fid])).Nodup)
    (hfid : st2.q.arr[fid]? = some filled)
    (hcb : filled.callback = cb) (hpar : filled.param = st2.base)
    (hres : filled.result = none) (hdn : filled.done = false)
    (hfg : filled.flags = flags) (hnx : filled.next = none)
    (hevLT : fid < q0.arr.length → filled.event = (getItemD q0 fid).event ∧
      filled.eventAllocs = (getItemD q0 fid).eventAllocs)
    (hevGE : q0.arr.length ≤ fid → filled.event = none ∧ filled.eventAllocs = 0) :
    BuildInvariant q0 cb stp flags base0 pids (chain_append st2 fid stp) := by
  obtain ⟨fr, hfrc, hfrlt, hnd⟩ := hfr
  have hfid_ids : fid ∉ st2.ids := by
    have := (List.nodup_append.mp hnd).2.1
    have h2 := (List.nodup_append.mp this).2.2
    intro hmem
    exact h2 hmem (List.mem_singleton.mpr rfl)
  have hids_nd : st2.ids.Nodup := by
    have := (List.nodup_append.mp hnd).2.1
    exact (List.nodup_append.mp this).1
  have hfid_pids : fid ∉ pids := by
    have hd := (List.nodup_append.mp hnd).2.2
    intro hmem
    exact hd (List.mem_append_left fr hmem) (by simp)
  have hfid_fr : fid ∉ fr := by
    have hd := (List.nodup_append.mp hnd).2.2
    intro hmem
    exact hd (List.mem_append_right pids hmem) (by simp)
  rcases htail with ⟨hids, hil, htp⟩ | ⟨ts, t, hids, htp⟩
  · -- empty chain so far: the new item becomes the whole chain
    have hca : chain_append st2 fid stp =
        { st2 with
          q := st2.q
          itemlist := some fid
          item_tailptr := some fid
          ids := st2.ids ++ [fid]
          base := st2.base + stp } := by
      simp [chain_append, htp]
    rw [hca]
    refine
      { notFailed := hNF
        listEq := hlist
        tailEq := htl
        itemsEq := hitems
        threadsEq := hthr
        flagsEq := hfl
        waitingEq := hwait
        doneEq := hdone
        lenLe := hlen
        frame := ?_
        chain := ?_
        tailCorr := ?_
        baseEq := ?_
        itemFields := ?_
        pending := hpend
        freeChain := ⟨fr, hfrc, hfrlt, hnd⟩ }
    · intro j hj hjm
      simp [hids] at hjm
      exact hframe j hj (by simp [hids]) hjm
    · show ChainSeg st2.q.arr (some fid) (st2.ids ++ [fid]) none
      rw [hids]
      refine ChainSeg.cons hfid ?_
      rw [hnx]
      exact ChainSeg.nil none
    · right
      exact ⟨st2.ids, fid, rfl, rfl⟩
    · show st2.base + stp = base0 + ((st2.ids ++ [fid]).length : Int) * stp
      rw [hbase, hids]
      push_cast [List.length_append, List.length_cons, List.length_nil]
      ring
    · intro k hk
      have hk1 : k < 1 := by simpa [hids] using hk
      have hk0 : k = 0 := by omega
      subst hk0
      have hget : (st2.ids ++ [fid]).get ⟨0, hk⟩ = fid := by
        simp [hids]
      rw [hget]
      refine ⟨filled, hfid, hcb, ?_, hres, hdn, hfg, hevLT, hevGE⟩
      rw [hpar, hbase, hids]
      push_cast [List.length_nil]
      ring
  · -- non-empty chain: link the last node to the new item
    have hca : chain_append st2 fid stp =
        { st2 with
          q := setItem st2.q t { getItemD st2.q t with next := some fid }
          itemlist := st2.itemlist
          item_tailptr := some fid
          ids := st2.ids ++ [fid]
          base := st2.base + stp } := by
      simp [chain_append, htp]
    obtain ⟨tit, hts, htit, htitn⟩ := ChainSeg.snoc_decomp (hids ▸ hchain)
    have htlt : t < st2.q.arr.length := (List.getElem?_eq_some.mp htit).1
    have hgt : getItemD st2.q t = tit := by
      simp [getItemD, htit]
    have htmem : t ∈ st2.ids := by
      rw [hids]
      simp
    have htfid : t ≠ fid := fun he => hfid_ids (he ▸ htmem)
    have htnotts : t ∉ ts := by
      have := hids ▸ hids_nd
      have h2 := List.nodup_append.mp this
      intro hmem
      exact h2.2.2 hmem (by simp)
    have harr3 : (setItem st2.q t { getItemD st2.q t with next := some fid }).arr =
        st2.q.arr.set t { tit with next := some fid } := by
      rw [hgt]
      rfl
    have hget_ne : ∀ j, j ≠ t →
        (st2.q.arr.set t { tit with next := some fid })[j]? = st2.q.arr[j]? :=
      fun j hj => List.getElem?_set_ne (Ne.symm hj)
    have hget_t : (st2.q.arr.set t { tit with next := some fid })[t]? =
        some { tit with next := some fid } :=
      List.getElem?_set_eq_of_lt _ htlt
    have hget_fid : (st2.q.arr.set t { tit with next := some fid })[fid]? =
        some filled := by
      rw [hget_ne fid (Ne.symm htfid)]
      exact hfid
    rw [hca]
    refine
      { notFailed := hNF
        listEq := by simpa [setItem] using hlist
        tailEq := by simpa [setItem] using htl
        itemsEq := by simpa [setItem] using hitems
        threadsEq := by simpa [setItem] using hthr
        flagsEq := by simpa [setItem] using hfl
        waitingEq := by simpa [setItem] using hwait
        doneEq := by simpa [setItem] using hdone
        lenLe := by simpa [setItem] using hlen
        frame := ?_
        chain := ?_
        tailCorr := ?_
        baseEq := ?_
        itemFields := ?_
        pending := ?_
        freeChain := ?_ }
    · intro j hj hjm
      have hjt : j ≠ t := fun he => hjm (by simp [he ▸ htmem])
      have hjfid : j ≠ fid := fun he => hjm (by simp [he])
      have hjids : j ∉ st2.ids := fun hm => hjm (by simp [hm])
      show (setItem st2.q t { getItemD st2.q t with next := some fid }).arr[j]? = q0.arr[j]?
      rw [harr3, hget_ne j hjt]
      exact hframe j hj hjids hjfid
    · show ChainSeg (setItem st2.q t { getItemD st2.q t with next := some fid }).arr
        st2.itemlist (st2.ids ++ [fid]) none
      rw [harr3, hids, List.append_assoc]
      have c1 : ChainSeg (st2.q.arr.set t { tit with next := some fid })
          st2.itemlist ts (some t) := by
        refine hts.frame ?_
        intro j hj
        obtain ⟨jt, hjt⟩ := hts.mem_some j hj
        have hjtne : j ≠ t := fun he => htnotts (he ▸ hj)
        exact ⟨jt, jt, hjt, by rw [hget_ne j hjtne]; exact hjt, rfl⟩
      have c3 : ChainSeg (st2.q.arr.set t { tit with next := some fid })
          (some fid) [fid] none := by
        refine ChainSeg.cons hget_fid ?_
        rw [hnx]
        exact ChainSeg.nil none
      have c2 : ChainSeg (st2.q.arr.set t { tit with next := some fid })
          (some t) (t :: [fid]) none := ChainSeg.cons hget_t c3
      exact c1.append c2
    · right
      exact ⟨st2.ids, fid, rfl, rfl⟩
    · show st2.base + stp = base0 + ((st2.ids ++ [fid]).length : Int) * stp
      rw [hbase]
      push_cast [List.length_append, List.length_cons, List.length_nil]
      ring
    · intro k hk
      have hklen : k < st2.ids.length + 1 := by simpa using hk
      by_cases hkl : k < st2.ids.length
      · have hget : (st2.ids ++ [fid]).get ⟨k, hk⟩ = st2.ids.get ⟨k, hkl⟩ := by
          exact List.get_append k hkl
        obtain ⟨it, hit, hitcb, hitp, hitr, hitd, hitf, hitlt, hitge⟩ := hfields k hkl
        rw [hget]
        show ∃ it2, (setItem st2.q t { getItemD st2.q t with next := some fid }).arr[st2.ids.get ⟨k, hkl⟩]? = some it2 ∧ _
        rw [harr3]
        by_cases hkt : st2.ids.get ⟨k, hkl⟩ = t
        · rw [hkt, hget_t]
          have hteq : it = tit := by
            rw [hkt] at hit
            rw [hit] at htit
            exact Option.some.inj htit
          subst hteq
          rw [hkt] at hitlt hitge
          exact ⟨{ it with next := some fid }, rfl, hitcb, hitp, hitr, hitd, hitf,
            hitlt, hitge⟩
        · rw [hget_ne _ hkt]
          exact ⟨it, hit, hitcb, hitp, hitr, hitd, hitf, hitlt, hitge⟩
      · have hkeq : k = st2.ids.length := by omega
        subst hkeq
        have hget : (st2.ids ++ [fid]).get ⟨st2.ids.length, hk⟩ = fid := by
          simp
        rw [hget]
        show ∃ it2, (setItem st2.q t { getItemD st2.q t with next := some fid }).arr[fid]? = some it2 ∧ _
        rw [harr3, hget_fid]
        refine ⟨filled, rfl, hcb, ?_, hres, hdn, hfg, hevLT, hevGE⟩
        rw [hpar, hbase]
    · show ChainSeg (setItem st2.q t { getItemD st2.q t with next := some fid }).arr
        (setItem st2.q t { getItemD st2.q t with next := some fid }).list pids none
      have : (setItem st2.q t { getItemD st2.q t with next := some fid }).list = st2.q.list := by
        simp [setItem]
      rw [this, harr3]
      refine hpend.frame ?_
      intro j hj
      obtain ⟨jt, hjt⟩ := hpend.mem_some j hj
      have hd := (List.nodup_append.mp hnd).2.2
      have hjt2 : j ≠ t := by
        intro he
        subst he
        exact hd (List.mem_append_left fr hj) (by simp [htmem])
      exact ⟨jt, jt, hjt, by rw [hget_ne j hjt2]; exact hjt, rfl⟩
    · refine ⟨fr, ?_, hfrlt, ?_⟩
      · have hfree_eq : (setItem st2.q t { getItemD st2.q t with next := some fid }).free = st2.q.free := by
          simp [setItem]
        rw [hfree_eq, harr3]
        refine hfrc.frame ?_
        intro j hj
        obtain ⟨jt, hjt⟩ := hfrc.mem_some j hj
        have hd := (List.nodup_append.mp hnd).2.2
        have hjt2 : j ≠ t := by
          intro he
          subst he
          exact hd (List.mem_append_right pids hj) (by simp [htmem])
        exact ⟨jt, jt, hjt, by rw [hget_ne j hjt2]; exact hjt, rfl⟩
      · exact hnd

lemma ChainSeg.some_inv {arr : List OsdWorkItem} {id : Nat} {ids : List Nat}
    (hc : ChainSeg arr (some id) ids none) :
    ∃ it rest, ids = id :: rest ∧ arr[id]? = some it ∧
      ChainSeg arr it.next rest none := by
  cases hc with
  | cons h hn => exact ⟨_, _, rfl, h, hn⟩

lemma build_step_pop (q0 : OsdWorkQueue) (cb : Int → Int) (stp : Int)
    (flags : Nat) (base0 : Int) (pids : List Nat) (st : BuildSt) (fid : Nat)
    (hinv : BuildInvariant q0 cb stp flags base0 pids st)
    (hfree : st.q.free = some fid) :
    BuildInvariant q0 cb stp flags base0 pids
      (chain_append
        { st with q :=
            (setItem { st.q with free := (getItemD st.q fid).next } fid
              (fill_item (getItemD { st.q with free := (getItemD st.q fid).next } fid)
                cb st.base flags)) }
        fid stp) := by
  obtain ⟨fr, hfrc, hfrlt, hnd⟩ := hinv.freeChain
  rw [hfree] at hfrc
  obtain ⟨fit, fr2, hfr2, hfit, hfrest⟩ := ChainSeg.some_inv hfrc
  subst hfr2
  have hfidlt : fid < st.q.arr.length := (List.getElem?_eq_some.mp hfit).1
  have hfidq0 : fid < q0.arr.length := hfrlt fid (by simp)
  have hfid_ids : fid ∉ st.ids := by
    have hd := (List.nodup_append.mp hnd).2.2
    intro hm
    exact hd (List.mem_append_right pids (by simp)) hm
  have hfid_fr2 : fid ∉ fr2 := by
    have h1 := (List.nodup_append.mp hnd).1
    have h2 := (List.nodup_append.mp h1).2.1
    exact (List.nodup_cons.mp h2).1
  have hgit : getItemD st.q fid = fit := by
    simp [getItemD, hfit]
  have hfitq0 : q0.arr[fid]? = some fit := by
    rw [← hinv.frame fid hfidq0 hfid_ids]
    exact hfit
  have hgit0 : getItemD q0 fid = fit := by
    simp [getItemD, hfitq0]
  set q1 := ({ st.q with free := (getItemD st.q fid).next } : OsdWorkQueue) with hq1
  have hq1arr : q1.arr = st.q.arr := rfl
  have hgit1 : getItemD q1 fid = fit := by
    simp [getItemD, hq1arr, hfit]
  set filled := fill_item (getItemD q1 fid) cb st.base flags with hfld
  have hflde : filled = fill_item fit cb st.base flags := by rw [hfld, hgit1]
  set q2 := setItem q1 fid filled with hq2
  have hq2arr : q2.arr = st.q.arr.set fid filled := rfl
  have hg2ne : ∀ j, j ≠ fid → q2.arr[j]? = st.q.arr[j]? := by
    intro j hj
    rw [hq2arr]
    exact List.getElem?_set_ne (Ne.symm hj)
  have hg2fid : q2.arr[fid]? = some filled := by
    rw [hq2arr]
    exact List.getElem?_set_eq_of_lt _ hfidlt
  refine chain_append_invariant q0 cb stp flags base0 pids
    { st with q := q2 } fid filled hinv.notFailed hinv.listEq hinv.tailEq
    hinv.itemsEq hinv.threadsEq hinv.flagsEq hinv.waitingEq hinv.doneEq
    (le_trans hinv.lenLe (by rw [hq2arr]; simp)) ?_ ?_ ?_ hinv.baseEq ?_ ?_ ?_
    hg2fid (by rw [hflde]; rfl) (by rw [hflde]; rfl) (by rw [hflde]; rfl)
    (by rw [hflde]; rfl) (by rw [hflde]; rfl) (by rw [hflde]; rfl) ?_ ?_
  · intro j hj hjids hjfid
    show q2.arr[j]? = q0.arr[j]?
    rw [hg2ne j hjfid]
    exact hinv.frame j hj hjids
  · show ChainSeg q2.arr st.itemlist st.ids none
    refine hinv.chain.frame ?_
    intro j hj
    obtain ⟨jt, hjt⟩ := hinv.chain.mem_some j hj
    have hjfid : j ≠ fid := fun he => hfid_ids (he ▸ hj)
    exact ⟨jt, jt, hjt, by rw [hg2ne j hjfid]; exact hjt, rfl⟩
  · exact hinv.tailCorr
  · intro k hk
    obtain ⟨it, hit, hrest'⟩ := hinv.itemFields k hk
    have hmem : st.ids.get ⟨k, hk⟩ ∈ st.ids := List.get_mem _ _ _
    have hjfid : st.ids.get ⟨k, hk⟩ ≠ fid := fun he => hfid_ids (he ▸ hmem)
    exact ⟨it, by rw [hg2ne _ hjfid]; exact hit, hrest'⟩
  · show ChainSeg q2.arr q2.list pids none
    have hl2 : q2.list = st.q.list := rfl
    rw [hl2]
    refine hinv.pending.frame ?_
    intro j hj
    obtain ⟨jt, hjt⟩ := hinv.pending.mem_some j hj
    have hd := (List.nodup_append.mp hnd).1
    have hdis := (List.nodup_append.mp hd).2.2
    have hjfid : j ≠ fid := by
      intro he
      subst he
      exact hdis hj (by simp)
    exact ⟨jt, jt, hjt, by rw [hg2ne j hjfid]; exact hjt, rfl⟩
  · refine ⟨fr2, ?_, fun j hj => hfrlt j (by simp [hj]), ?_⟩
    · have hfree2 : q2.free = fit.next := by
        show q1.free = fit.next
        rw [hq1]
        simp [hgit]
      rw [hfree2]
      refine hfrest.frame ?_
      intro j hj
      obtain ⟨jt, hjt⟩ := hfrest.mem_some j hj
      have hjfid : j ≠ fid := fun he => hfid_fr2 (he ▸ hj)
      exact ⟨jt, jt, hjt, by rw [hg2ne j hjfid]; exact hjt, rfl⟩
    · exact nodup_shuffle pids fr2 st.ids fid hnd
  · intro hlt
    rw [hflde, hgit0]
    exact ⟨rfl, rfl⟩
  · intro hge
    exact absurd hfidq0 (by omega)

lemma build_step_fresh (q0 : OsdWorkQueue) (cb : Int → Int) (stp : Int)
    (flags : Nat) (base0 : Int) (pids : List Nat) (st : BuildSt)
    (hinv : BuildInvariant q0 cb stp flags base0 pids st)
    (hfree : st.q.free = none) :
    BuildInvariant q0 cb stp flags base0 pids
      (chain_append
        { st with
          q := (setItem { st.q with arr := st.q.arr ++ [fresh_item] }
            st.q.arr.length
            (fill_item
              (getItemD { st.q with arr := st.q.arr ++ [fresh_item] }
                st.q.arr.length)
              cb st.base flags))
          mallocs := st.mallocs + 1 }
        st.q.arr.length stp) := by
  obtain ⟨fr, hfrc, hfrlt, hnd⟩ := hinv.freeChain
  rw [hfree] at hfrc
  obtain ⟨hfr0, -⟩ := ChainSeg.none_inv hfrc
  subst hfr0
  set fid := st.q.arr.length with hfidd
  set q1 := ({ st.q with arr := st.q.arr ++ [fresh_item] } : OsdWorkQueue) with hq1
  have hgit1 : getItemD q1 fid = fresh_item := by
    simp [getItemD, hq1]
  set filled := fill_item (getItemD q1 fid) cb st.base flags with hfld
  have hflde : filled = fill_item fresh_item cb st.base flags := by
    rw [hfld, hgit1]
  set q2 := setItem q1 fid filled with hq2
  have hq2arr : q2.arr = (st.q.arr ++ [fresh_item]).set fid filled := rfl
  have hg2ne : ∀ j, j ≠ fid → q2.arr[j]? = st.q.arr[j]? := by
    intro j hj
    rw [hq2arr, List.getElem?_set_ne (Ne.symm hj)]
    rcases lt_or_ge j st.q.arr.length with hlt | hge
    · exact List.getElem?_append_left hlt
    · have hj1 : st.q.arr.length + 1 ≤ j := by omega
      rw [List.getElem?_eq_none (l := st.q.arr ++ [fresh_item]) (by simpa using hj1),
        List.getElem?_eq_none hge]
  have hg2fid : q2.arr[fid]? = some filled := by
    rw [hq2arr]
    exact List.getElem?_set_eq_of_lt _ (by simp [hfidd])
  have hpids_lt : ∀ j ∈ pids, j < fid := fun j hj => hinv.pending.mem_lt j hj
  have hids_lt : ∀ j ∈ st.ids, j < fid := fun j hj => hinv.chain.mem_lt j hj
  have hfid_pids : fid ∉ pids := fun hm => absurd (hpids_lt fid hm) (by omega)
  have hfid_ids : fid ∉ st.ids := fun hm => absurd (hids_lt fid hm) (by omega)
  have hq0fid : q0.arr.length ≤ fid := hinv.lenLe
  refine chain_append_invariant q0 cb stp flags base0 pids
    { st with q := q2, mallocs := st.mallocs + 1 } fid filled hinv.notFailed
    hinv.listEq hinv.tailEq hinv.itemsEq hinv.threadsEq hinv.flagsEq
    hinv.waitingEq hinv.doneEq
    (le_trans hinv.lenLe (by rw [hq2arr]; simp [hfidd])) ?_ ?_ ?_
    hinv.baseEq ?_ ?_ ?_ hg2fid (by rw [hflde]; rfl) (by rw [hflde]; rfl)
    (by rw [hflde]; rfl) (by rw [hflde]; rfl) (by rw [hflde]; rfl)
    (by rw [hflde]; rfl) ?_ ?_
  · intro j hj hjids hjfid
    show q2.arr[j]? = q0.arr[j]?
    rw [hg2ne j hjfid]
    exact hinv.frame j hj hjids
  · show ChainSeg q2.arr st.itemlist st.ids none
    refine hinv.chain.frame ?_
    intro j hj
    obtain ⟨jt, hjt⟩ := hinv.chain.mem_some j hj
    have hjfid : j ≠ fid := fun he => hfid_ids (he ▸ hj)
    exact ⟨jt, jt, hjt, by rw [hg2ne j hjfid]; exact hjt, rfl⟩
  · exact hinv.tailCorr
  · intro k hk
    obtain ⟨it, hit, hrest'⟩ := hinv.itemFields k hk
    have hmem : st.ids.get ⟨k, hk⟩ ∈ st.ids := List.get_mem _ _ _
    have hjfid : st.ids.get ⟨k, hk⟩ ≠ fid := fun he => hfid_ids (he ▸ hmem)
    exact ⟨it, by rw [hg2ne _ hjfid]; exact hit, hrest'⟩
  · show ChainSeg q2.arr q2.list pids none
    have hl2 : q2.list = st.q.list := rfl
    rw [hl2]
    refine hinv.pending.frame ?_
    intro j hj
    obtain ⟨jt, hjt⟩ := hinv.pending.mem_some j hj
    have hjfid : j ≠ fid := fun he => hfid_pids (he ▸ hj)
    exact ⟨jt, jt, hjt, by rw [hg2ne j hjfid]; exact hjt, rfl⟩
  · refine ⟨[], ?_, by simp, ?_⟩
    · have hfree2 : q2.free = none := hfree
      rw [hfree2]
      exact ChainSeg.nil none
    · refine nodup_snoc_fresh pids [] st.ids fid hnd ?_
      simp only [List.append_nil, List.nil_append, List.mem_append]
      rintro (hm | hm)
      · exact hfid_pids hm
      · exact hfid_ids hm
  · intro hlt
    exact absurd hq0fid (by omega)
  · intro hge
    rw [hflde]
    exact ⟨rfl, rfl⟩

lemma submit_build_invariant (q0 : OsdWorkQueue) (cb : Int → Int) (stp : Int)
    (flags : Nat) (base0 : Int) (pids : List Nat) :
    ∀ (n : Nat) (st : BuildSt),
      BuildInvariant q0 cb stp flags base0 pids st →
      BuildInvariant q0 cb stp flags base0 pids
        (submit_build cb stp flags (fun _ => true) n st) ∧
      (submit_build cb stp flags (fun _ => true) n st).ids.length =
        st.ids.length + n := by
  intro n
  induction n with
  | zero =>
    intro st hinv
    exact ⟨hinv, rfl⟩
  | succ n ih =>
    intro st hinv
    cases hfree : st.q.free with
    | some fid =>
      have heq : submit_build cb stp flags (fun _ => true) (n + 1) st =
          submit_build cb stp flags (fun _ => true) n
            (chain_append
              { st with q :=
                  (setItem { st.q with free := (getItemD st.q fid).next } fid
                    (fill_item
                      (getItemD { st.q with free := (getItemD st.q fid).next } fid)
                      cb st.base flags)) }
              fid stp) := by
        simp only [submit_build, hfree]
      rw [heq]
      obtain ⟨hinv', hlen⟩ := ih _ (build_step_pop q0 cb stp flags base0 pids st fid hinv hfree)
      refine ⟨hinv', ?_⟩
      rw [hlen]
      show (chain_append _ fid stp).ids.length + n = st.ids.length + (n + 1)
      simp [chain_append]
      omega
    | none =>
      have heq : submit_build cb stp flags (fun _ => true) (n + 1) st =
          submit_build cb stp flags (fun _ => true) n
            (chain_append
              { st with
                q := (setItem { st.q with arr := st.q.arr ++ [fresh_item] }
                  st.q.arr.length
                  (fill_item
                    (getItemD { st.q with arr := st.q.arr ++ [fresh_item] }
                      st.q.arr.length)
                    cb st.base flags))
                mallocs := st.mallocs + 1 }
              st.q.arr.length stp) := by
        simp only [submit_build, hfree, if_pos]
      rw [heq]
      obtain ⟨hinv', hlen⟩ := ih _ (build_step_fresh q0 cb stp flags base0 pids st hinv hfree)
      refine ⟨hinv', ?_⟩
      rw [hlen]
      show (chain_append _ st.q.arr.length stp).ids.length + n = st.ids.length + (n + 1)
      simp [chain_append]
      omega

lemma build_invariant_init (q0 : OsdWorkQueue) (cb : Int → Int) (stp : Int)
    (flags : Nat) (base0 : Int) (pids fids : List Nat)
    (hp : ChainSeg q0.arr q0.list pids none)
    (hf : ChainSeg q0.arr q0.free fids none)
    (hnd : (pids ++ fids).Nodup) :
    BuildInvariant q0 cb stp flags base0 pids
      { q := q0, base := base0, itemlist := none, item_tailptr := none,
        ids := [], mallocs := 0, failed := false } :=
  { notFailed := rfl
    listEq := rfl
    tailEq := rfl
    itemsEq := rfl
    threadsEq := rfl
    flagsEq := rfl
    waitingEq := rfl
    doneEq := rfl
    lenLe := le_refl _
    frame := fun _ _ _ => rfl
    chain := ChainSeg.nil none
    tailCorr := Or.inl ⟨rfl, rfl, rfl⟩
    baseEq := by simp
    itemFields := fun k hk => absurd hk (by simp)
    pending := hp
    freeChain := ⟨fids, hf, fun j hj => hf.mem_lt j hj, by simpa using hnd⟩ }

lemma submit_spliced (q0 : OsdWorkQueue) (cb : Int → Int) (n : Nat)
    (base stp : Int) (flags : Nat) (pids fids : List Nat)
    (hp : ChainSeg q0.arr q0.list pids none)
    (hf : ChainSeg q0.arr q0.free fids none)
    (hnd : (pids ++ fids).Nodup)
    (htail : (pids = [] ∧ q0.tailptr = TailPtr.listHead) ∨
      (∃ ts t, pids = ts ++ [t] ∧ q0.tailptr = TailPtr.itemNext t))
    (hn : 1 ≤ n) :
    ∃ (ids : List Nat) (q3 : OsdWorkQueue),
      osd_work_item_queue_multiple q0 cb (n : Int) base stp flags (fun _ => true) =
        ((if flags &&& WORK_ITEM_FLAG_AUTO_RELEASE ≠ 0 then none else ids.head?),
          if q3.threads = 0 then worker_thread_process q3 else q3) ∧
      ids.length = n ∧
      (pids ++ ids).Nodup ∧
      ChainSeg q3.arr q3.list (pids ++ ids) none ∧
      q3.items = q0.items + n ∧
      q3.threads = q0.threads ∧
      q3.waiting = q0.waiting ∧
      q3.flags = q0.flags ∧
      (∃ ts t, pids ++ ids = ts ++ [t] ∧ q3.tailptr = TailPtr.itemNext t) ∧
      (∀ k (hk : k < ids.length), ∃ it,
        q3.arr[ids.get ⟨k, hk⟩]? = some it ∧
        it.callback = cb ∧ it.param = base + (k : Int) * stp ∧
        it.result = none ∧ it.done = false ∧ it.flags = flags ∧
        (ids.get ⟨k, hk⟩ < q0.arr.length →
          it.event = (getItemD q0 (ids.get ⟨k, hk⟩)).event ∧
          it.eventAllocs = (getItemD q0 (ids.get ⟨k, hk⟩)).eventAllocs) ∧
        (q0.arr.length ≤ ids.get ⟨k, hk⟩ → it.event = none ∧ it.eventAllocs = 0)) ∧
      (∀ j, j < q0.arr.length → j ∉ ids →
        ∃ it0 it1, q0.arr[j]? = some it0 ∧ q3.arr[j]? = some it1 ∧
          it1.callback = it0.callback ∧ it1.param = it0.param ∧
          it1.result = it0.result ∧ it1.done = it0.done ∧
          it1.flags = it0.flags ∧ it1.event = it0.event ∧
          it1.eventAllocs = it0.eventAllocs) := by
  have hInv0 := build_invariant_init q0 cb stp flags base pids fids hp hf hnd
  obtain ⟨hInv, hlen⟩ := submit_build_invariant q0 cb stp flags base pids n
    { q := q0, base := base, itemlist := none, item_tailptr := none,
      ids := [], mallocs := 0, failed := false } hInv0
  set st := submit_build cb stp flags (fun _ => true) n
    { q := q0, base := base, itemlist := none, item_tailptr := none,
      ids := [], mallocs := 0, failed := false } with hst
  have hlen' : st.ids.length = n := by
    rw [hlen]
    simp
  obtain ⟨fr, hfrc, hfrlt, hndfull⟩ := hInv.freeChain
  have hdisj_pid_id : ∀ a ∈ pids, a ∉ st.ids := by
    intro a ha hb
    have hd := (List.nodup_append.mp hndfull).2.2
    exact hd (List.mem_append_left fr ha) hb
  have hids_nd : st.ids.Nodup := (List.nodup_append.mp hndfull).2.1
  have hnd_pids_ids : (pids ++ st.ids).Nodup := by
    have hsub : (pids ++ st.ids).Sublist (pids ++ (fr ++ st.ids)) :=
      List.Sublist.append_left (List.sublist_append_right fr st.ids) pids
    refine List.Nodup.sublist hsub ?_
    rw [← List.append_assoc]
    exact hndfull
  rcases hInv.tailCorr with ⟨hids0, -, -⟩ | ⟨ts', t', hids', htp'⟩
  · rw [hids0] at hlen'
    simp at hlen'
    omega
  obtain ⟨id0, rest, hidshape⟩ : ∃ id0 rest, st.ids = id0 :: rest := by
    cases hcase : st.ids with
    | nil =>
      rw [hcase] at hlen'
      simp at hlen'
      omega
    | cons a l => exact ⟨a, l, rfl⟩
  have hil : st.itemlist = some id0 := (hidshape ▸ hInv.chain).head_some
  have hhead : st.ids.head? = some id0 := by
    rw [hidshape]
    rfl
  have hq0some : ∀ j, j < q0.arr.length → ∃ it0, q0.arr[j]? = some it0 := by
    intro j hj
    exact ⟨q0.arr[j], List.getElem?_eq_getElem hj⟩
  -- case split on the shape of the original pending list
  rcases htail with ⟨hpids0, h0tl⟩ | ⟨ts0, t0, hpids', h0tl⟩
  · -- empty pending list: the write through tailptr goes into list_head
    have hq1eq : writeThroughTailptr st.q st.itemlist =
        { st.q with list := st.itemlist } := by
      simp [writeThroughTailptr, hInv.tailEq, h0tl]
    refine ⟨st.ids, { { writeThroughTailptr st.q st.itemlist with
      tailptr := TailPtr.itemNext t' } with
      items := { writeThroughTailptr st.q st.itemlist with
        tailptr := TailPtr.itemNext t' }.items + (n : Int) }, ?_, hlen',
      hnd_pids_ids, ?_, ?_, ?_, ?_, ?_, ?_, ?_, ?_⟩
    · simp only [osd_work_item_queue_multiple, Int.toNat_natCast, ← hst,
        hInv.notFailed, htp', hil, hhead]
      simp
    · rw [hpids0]
      show ChainSeg (writeThroughTailptr st.q st.itemlist).arr
        (writeThroughTailptr st.q st.itemlist).list ([] ++ st.ids) none
      rw [hq1eq]
      simpa using hInv.chain
    · show (writeThroughTailptr st.q st.itemlist).items + (n : Int) = q0.items + n
      rw [hq1eq]
      show st.q.items + (n : Int) = q0.items + n
      rw [hInv.itemsEq]
    · show (writeThroughTailptr st.q st.itemlist).threads = q0.threads
      rw [hq1eq]
      exact hInv.threadsEq
    · show (writeThroughTailptr st.q st.itemlist).waiting = q0.waiting
      rw [hq1eq]
      exact hInv.waitingEq
    · show (writeThroughTailptr st.q st.itemlist).flags = q0.flags
      rw [hq1eq]
      exact hInv.flagsEq
    · refine ⟨pids ++ ts', t', ?_, rfl⟩
      rw [hids', ← List.append_assoc]
    · intro k hk
      obtain ⟨it, hit, hrest⟩ := hInv.itemFields k hk
      refine ⟨it, ?_, hrest⟩
      show (writeThroughTailptr st.q st.itemlist).arr[st.ids.get ⟨k, hk⟩]? = some it
      rw [hq1eq]
      exact hit
    · intro j hj hjids
      obtain ⟨it0, hit0⟩ := hq0some j hj
      refine ⟨it0, it0, hit0, ?_, rfl, rfl, rfl, rfl, rfl, rfl, rfl⟩
      show (writeThroughTailptr st.q st.itemlist).arr[j]? = some it0
      rw [hq1eq]
      show st.q.arr[j]? = some it0
      rw [hInv.frame j hj hjids]
      exact hit0
  · -- non-empty pending list: the write goes into the last node's next field
    obtain ⟨tit, hts0seg, htit, htitnone⟩ :=
      ChainSeg.snoc_decomp (hpids' ▸ hInv.pending)
    have ht0lt : t0 < st.q.arr.length := (List.getElem?_eq_some.mp htit).1
    have hgt0 : getItemD st.q t0 = tit := by
      simp [getItemD, htit]
    have ht0pids : t0 ∈ pids := by
      rw [hpids']
      simp
    have ht0ids : t0 ∉ st.ids := hdisj_pid_id t0 ht0pids
    have ht0ts0 : t0 ∉ ts0 := by
      have hpnd : pids.Nodup := (List.nodup_append.mp hnd).1
      rw [hpids'] at hpnd
      have h2 := List.nodup_append.mp hpnd
      intro hmem
      exact h2.2.2 hmem (by simp)
    have hq1eq : writeThroughTailptr st.q st.itemlist =
        setItem st.q t0 { getItemD st.q t0 with next := st.itemlist } := by
      simp [writeThroughTailptr, hInv.tailEq, h0tl]
    have hq1arr : (writeThroughTailptr st.q st.itemlist).arr =
        st.q.arr.set t0 { tit with next := st.itemlist } := by
      rw [hq1eq, hgt0]
      rfl
    have hg1ne : ∀ j, j ≠ t0 →
        (writeThroughTailptr st.q st.itemlist).arr[j]? = st.q.arr[j]? := by
      intro j hj
      rw [hq1arr]
      exact List.getElem?_set_ne (Ne.symm hj)
    have hg1t0 : (writeThroughTailptr st.q st.itemlist).arr[t0]? =
        some { tit with next := st.itemlist } := by
      rw [hq1arr]
      exact List.getElem?_set_eq_of_lt _ ht0lt
    have hq1list : (writeThroughTailptr st.q st.itemlist).list = st.q.list := by
      rw [hq1eq]
      rfl
    refine ⟨st.ids, { { writeThroughTailptr st.q st.itemlist with
      tailptr := TailPtr.itemNext t' } with
      items := { writeThroughTailptr st.q st.itemlist with
        tailptr := TailPtr.itemNext t' }.items + (n : Int) }, ?_, hlen',
      hnd_pids_ids, ?_, ?_, ?_, ?_, ?_, ?_, ?_, ?_⟩
    · simp only [osd_work_item_queue_multiple, Int.toNat_natCast, ← hst,
        hInv.notFailed, htp', hil, hhead]
      simp
    · show ChainSeg (writeThroughTailptr st.q st.itemlist).arr
        (writeThroughTailptr st.q st.itemlist).list (pids ++ st.ids) none
      rw [hq1list, hpids', List.append_assoc]
      have c1 : ChainSeg (writeThroughTailptr st.q st.itemlist).arr
          st.q.list ts0 (some t0) := by
        refine hts0seg.frame ?_
        intro j hj
        obtain ⟨jt, hjt⟩ := hts0seg.mem_some j hj
        have hjne : j ≠ t0 := fun he => ht0ts0 (he ▸ hj)
        exact ⟨jt, jt, hjt, by rw [hg1ne j hjne]; exact hjt, rfl⟩
      have c3 : ChainSeg (writeThroughTailptr st.q st.itemlist).arr
          st.itemlist st.ids none := by
        refine hInv.chain.frame ?_
        intro j hj
        obtain ⟨jt, hjt⟩ := hInv.chain.mem_some j hj
        have hjne : j ≠ t0 := fun he => ht0ids (he ▸ hj)
        exact ⟨jt, jt, hjt, by rw [hg1ne j hjne]; exact hjt, rfl⟩
      have c2 : ChainSeg (writeThroughTailptr st.q st.itemlist).arr
          (some t0) (t0 :: st.ids) none := ChainSeg.cons hg1t0 c3
      exact c1.append c2
    · show (writeThroughTailptr st.q st.itemlist).items + (n : Int) = q0.items + n
      rw [hq1eq]
      show st.q.items + (n : Int) = q0.items + n
      rw [hInv.itemsEq]
    · show (writeThroughTailptr st.q st.itemlist).threads = q0.threads
      rw [hq1eq]
      exact hInv.threadsEq
    · show (writeThroughTailptr st.q st.itemlist).waiting = q0.waiting
      rw [hq1eq]
      exact hInv.waitingEq
    · show (writeThroughTailptr st.q st.itemlist).flags = q0.flags
      rw [hq1eq]
      exact hInv.flagsEq
    · refine ⟨pids ++ ts', t', ?_, rfl⟩
      rw [hids', ← List.append_assoc]
    · intro k hk
      obtain ⟨it, hit, hrest⟩ := hInv.itemFields k hk
      have hmem : st.ids.get ⟨k, hk⟩ ∈ st.ids := List.get_mem _ _ _
      have hjne : st.ids.get ⟨k, hk⟩ ≠ t0 := fun he => ht0ids (he ▸ hmem)
      refine ⟨it, ?_, hrest⟩
      rw [hg1ne _ hjne]
      exact hit
    · intro j hj hjids
      obtain ⟨it0, hit0⟩ := hq0some j hj
      by_cases hjt0 : j = t0
      · subst hjt0
        have hq0j : q0.arr[j]? = some tit := by
          rw [← hInv.frame j hj hjids]
          exact htit
        have hiteq : it0 = tit := by
          rw [hit0] at hq0j
          exact Option.some.inj hq0j
        subst hiteq
        exact ⟨it0, { it0 with next := st.itemlist }, hit0, hg1t0, rfl, rfl,
          rfl, rfl, rfl, rfl, rfl⟩
      · refine ⟨it0, it0, hit0, ?_, rfl, rfl, rfl, rfl, rfl, rfl, rfl⟩
        rw [hg1ne j hjt0]
        show st.q.arr[j]? = some it0
        rw [hInv.frame j hj hjids]
        exact hit0

/-- **C5.** `osd_work_item_queue_multiple` builds a chain of `count` items in
submission order — the `i`-th carrying `callback = cb`,
`param = base + i * step`, `result = NULL`, `done = false` and the given
flags — splices the whole chain onto the queue tail (the pending list becomes
the old pending ids followed by the new chain ids, in order, with `tailptr`
at the last new node's `next` field), and returns the first item of the chain
unless AUTO_RELEASE is set, in which case it returns NULL.  Stated for queues
with workers (`threads ≠ 0`), where no inline drain happens; hypotheses are
the well-formedness of the pending and free lists. -/
theorem submit_builds_chain (q0 : OsdWorkQueue) (cb : Int → Int) (n : Nat)
    (base stp : Int) (flags : Nat) (pids fids : List Nat)
    (hp : ChainSeg q0.arr q0.list pids none)
    (hf : ChainSeg q0.arr q0.free fids none)
    (hnd : (pids ++ fids).Nodup)
    (htail : (pids = [] ∧ q0.tailptr = TailPtr.listHead) ∨
      (∃ ts t, pids = ts ++ [t] ∧ q0.tailptr = TailPtr.itemNext t))
    (hthreads : q0.threads ≠ 0) (hn : 1 ≤ n) :
    ∃ ids : List Nat,
      ids.length = n ∧
      (osd_work_item_queue_multiple q0 cb (n : Int) base stp flags
          (fun _ => true)).1 =
        (if flags &&& WORK_ITEM_FLAG_AUTO_RELEASE ≠ 0 then none
          else ids.head?) ∧
      ChainSeg (osd_work_item_queue_multiple q0 cb (n : Int) base stp flags
          (fun _ => true)).2.arr
        (osd_work_item_queue_multiple q0 cb (n : Int) base stp flags
          (fun _ => true)).2.list (pids ++ ids) none ∧
      (osd_work_item_queue_multiple q0 cb (n : Int) base stp flags
          (fun _ => true)).2.items = q0.items + n ∧
      (∃ ts t, pids ++ ids = ts ++ [t] ∧
        (osd_work_item_queue_multiple q0 cb (n : Int) base stp flags
          (fun _ => true)).2.tailptr = TailPtr.itemNext t) ∧
      (∀ k (hk : k < ids.length), ∃ it,
        (osd_work_item_queue_multiple q0 cb (n : Int) base stp flags
          (fun _ => true)).2.arr[ids.get ⟨k, hk⟩]? = some it ∧
        it.callback = cb ∧ it.param = base + (k : Int) * stp ∧
        it.result = none ∧ it.done = false ∧ it.flags = flags) := by
  obtain ⟨ids, q3, hmain, hlen, hnd2, hchain, hitems, hthr, hwait, hflg,
    htl, hfld, hframe⟩ := submit_spliced q0 cb n base stp flags pids fids
      hp hf hnd htail hn
  have hq3ne : ¬ q3.threads = 0 := by
    rw [hthr]
    exact hthreads
  have hsnd : (osd_work_item_queue_multiple q0 cb (n : Int) base stp flags
      (fun _ => true)).2 = q3 := by
    rw [hmain]
    simp [hq3ne]
  have hfst : (osd_work_item_queue_multiple q0 cb (n : Int) base stp flags
      (fun _ => true)).1 =
      (if flags &&& WORK_ITEM_FLAG_AUTO_RELEASE ≠ 0 then none
        else ids.head?) := by
    rw [hmain]
  refine ⟨ids, hlen, hfst, ?_, ?_, ?_, ?_⟩
  · rw [hsnd]
    exact hchain
  · rw [hsnd]
    exact hitems
  · rw [hsnd]
    exact htl
  · intro k hk
    obtain ⟨it, hit, hcb, hpar, hres, hdn, hfl, -, -⟩ := hfld k hk
    rw [hsnd]
    exact ⟨it, hit, hcb, hpar, hres, hdn, hfl⟩

/-- Witness for C5: two items submitted to a fresh one-worker queue. -/
theorem submit_builds_chain_witness :
    ∃ ids : List Nat,
      ids.length = 2 ∧
      (osd_work_item_queue_multiple emptyQueue (fun x => x + 1) ((2 : Nat) : Int)
          0 3 0 (fun _ => true)).1 =
        (if (0 : Nat) &&& WORK_ITEM_FLAG_AUTO_RELEASE ≠ 0 then none
          else ids.head?) ∧
      ChainSeg (osd_work_item_queue_multiple emptyQueue (fun x => x + 1)
          ((2 : Nat) : Int) 0 3 0 (fun _ => true)).2.arr
        (osd_work_item_queue_multiple emptyQueue (fun x => x + 1)
          ((2 : Nat) : Int) 0 3 0 (fun _ => true)).2.list ([] ++ ids) none ∧
      (osd_work_item_queue_multiple emptyQueue (fun x => x + 1) ((2 : Nat) : Int)
          0 3 0 (fun _ => true)).2.items = emptyQueue.items + 2 ∧
      (∃ ts t, [] ++ ids = ts ++ [t] ∧
        (osd_work_item_queue_multiple emptyQueue (fun x => x + 1)
          ((2 : Nat) : Int) 0 3 0 (fun _ => true)).2.tailptr =
          TailPtr.itemNext t) ∧
      (∀ k (hk : k < ids.length), ∃ it,
        (osd_work_item_queue_multiple emptyQueue (fun x => x + 1)
          ((2 : Nat) : Int) 0 3 0 (fun _ => true)).2.arr[ids.get ⟨k, hk⟩]? =
          some it ∧
        it.callback = (fun x => x + 1) ∧ it.param = 0 + (k : Int) * 3 ∧
        it.result = none ∧ it.done = false ∧ it.flags = 0) :=
  submit_builds_chain emptyQueue (fun x => x + 1) 2 0 3 0 [] []
    (ChainSeg.nil none) (ChainSeg.nil none) (by simp) (Or.inl ⟨rfl, rfl⟩)
    (by decide) (by omega)

lemma worker_thread_process_items_arr (q : OsdWorkQueue) :
    (worker_thread_process q).items = (worker_inner q.items.toNat q).items ∧
    (worker_thread_process q).arr = (worker_inner q.items.toNat q).arr := by
  simp only [worker_thread_process]
  split_ifs <;> exact ⟨rfl, rfl⟩

/-- A freshly allocated queue on a 1-processor system without the I/O flag:
zero worker threads. -/
def zeroThreadQueue : OsdWorkQueue :=
  { emptyQueue with threads := 0 }

/-- **C1.** On a queue with `threads_total = 0`, `osd_work_item_queue_multiple`
drains all submitted work inline on the calling thread before returning: on
return `items = 0` and each of the `n` chain items is `done` with
`result = cb (base + i * step)`.  The second conjunct is the concrete S1
scenario: callback `x ↦ x²` on params 1..5 yields results
{1, 4, 9, 16, 25} and `items = 0` at return. -/
theorem zero_thread_submit_drains_inline :
    (∀ (q0 : OsdWorkQueue) (cb : Int → Int) (n : Nat) (base stp : Int)
        (flags : Nat) (fids : List Nat),
      q0.list = none → q0.items = 0 → q0.tailptr = TailPtr.listHead →
      ChainSeg q0.arr q0.free fids none → fids.Nodup → q0.threads = 0 →
      1 ≤ n →
      ∃ ids : List Nat, ids.length = n ∧
        (osd_work_item_queue_multiple q0 cb (n : Int) base stp flags
          (fun _ => true)).2.items = 0 ∧
        (∀ k (hk : k < ids.length), ∃ it,
          (osd_work_item_queue_multiple q0 cb (n : Int) base stp flags
            (fun _ => true)).2.arr[ids.get ⟨k, hk⟩]? = some it ∧
          it.done = true ∧
          it.result = some (cb (base + (k : Int) * stp)))) ∧
    ((osd_work_item_queue_multiple zeroThreadQueue (fun x => x * x) 5 1 1 0
        (fun _ => true)).2.items = 0 ∧
      (osd_work_item_queue_multiple zeroThreadQueue (fun x => x * x) 5 1 1 0
        (fun _ => true)).2.arr.map (fun it => it.result) =
        [some 1, some 4, some 9, some 16, some 25] ∧
      (osd_work_item_queue_multiple zeroThreadQueue (fun x => x * x) 5 1 1 0
        (fun _ => true)).2.arr.map (fun it => it.done) =
        [true, true, true, true, true]) := by
  constructor
  · intro q0 cb n base stp flags fids hlist hitems0 htl hf hfnd hthr hn
    have hp : ChainSeg q0.arr q0.list [] none := by
      rw [hlist]
      exact ChainSeg.nil none
    obtain ⟨ids, q3, hmain, hlen, hnd2, hchain, hitems, hthr3, hwait, hflg,
      htl3, hfld, hframe⟩ := submit_spliced q0 cb n base stp flags [] fids hp hf
        (by simpa using hfnd) (Or.inl ⟨rfl, htl⟩) hn
    have hq30 : q3.threads = 0 := by rw [hthr3, hthr]
    have hsnd : (osd_work_item_queue_multiple q0 cb (n : Int) base stp flags
        (fun _ => true)).2 = worker_thread_process q3 := by
      rw [hmain]
      simp [hq30]
    have hit3 : q3.items = (ids.length : Int) := by
      rw [hitems, hitems0, hlen]
      simp
    have htonat : q3.items.toNat = ids.length := by
      rw [hit3]
      exact Int.toNat_natCast _
    have hchain3 : ChainSeg q3.arr q3.list ids none := by simpa using hchain
    have hidsnd : ids.Nodup := by simpa using hnd2
    obtain ⟨hdA, hdB, hdC, hdD⟩ := worker_inner_drains ids q3 hchain3 hidsnd hit3
    obtain ⟨hwi, hwa⟩ := worker_thread_process_items_arr q3
    refine ⟨ids, hlen, ?_, ?_⟩
    · rw [hsnd, hwi, htonat]
      exact hdA
    · intro k hk
      obtain ⟨it, it', hq3it, hwit', hdone, hres, hcbeq, hpareq⟩ := hdD k hk
      obtain ⟨itf, hitf, hfcb, hfpar, -, -, -, -, -⟩ := hfld k hk
      have hite : it = itf := by
        rw [hq3it] at hitf
        exact Option.some.inj hitf
      refine ⟨it', ?_, hdone, ?_⟩
      · rw [hsnd, hwa, htonat]
        exact hwit'
      · rw [hres, hite, hfcb, hfpar]
  · exact ⟨rfl, rfl, rfl⟩

/-- Witness for C1: three identity items drained inline on a fresh
zero-worker queue. -/
theorem zero_thread_submit_drains_inline_witness :
    ∃ ids : List Nat, ids.length = 3 ∧
      (osd_work_item_queue_multiple zeroThreadQueue (fun x => x) ((3 : Nat) : Int)
        7 2 0 (fun _ => true)).2.items = 0 ∧
      (∀ k (hk : k < ids.length), ∃ it,
        (osd_work_item_queue_multiple zeroThreadQueue (fun x => x)
          ((3 : Nat) : Int) 7 2 0 (fun _ => true)).2.arr[ids.get ⟨k, hk⟩]? =
          some it ∧
        it.done = true ∧
        it.result = some ((fun x => x) (7 + (k : Int) * 2))) :=
  zero_thread_submit_drains_inline.1 zeroThreadQueue (fun x => x) 3 7 2 0 []
    rfl rfl rfl (ChainSeg.nil none) (by simp) rfl (by omega)

/-- The per-item event-allocation discipline: at most one `osd_event_alloc`
ever happens for an item, and an event is absent exactly when none has
happened yet. -/
def eventInv (it : OsdWorkItem) : Prop :=
  it.eventAllocs ≤ 1 ∧ (it.event = none ↔ it.eventAllocs = 0)

/-- **C10.** Lazily allocated per-item events survive free-list recycling:
(1) a submit fills recycled items without touching `event`/`eventAllocs`
(they keep the values the item had in the queue before) and initialises
`event = NULL` only on freshly malloc'd items, and items outside the new
chain keep their event state; (2) `osd_work_item_wait` on a not-done item
that already has an event merely resets it (no new allocation); (3) it
allocates only when the item has no event yet; (4) completing an item never
discards its event or allocates another; (5) hence `osd_work_item_wait`
preserves the at-most-one-allocation discipline `eventInv`. -/
theorem event_retention_across_recycle :
    (∀ (q0 : OsdWorkQueue) (cb : Int → Int) (n : Nat) (base stp : Int)
        (flags : Nat) (pids fids : List Nat),
      ChainSeg q0.arr q0.list pids none →
      ChainSeg q0.arr q0.free fids none →
      (pids ++ fids).Nodup →
      ((pids = [] ∧ q0.tailptr = TailPtr.listHead) ∨
        (∃ ts t, pids = ts ++ [t] ∧ q0.tailptr = TailPtr.itemNext t)) →
      q0.threads ≠ 0 → 1 ≤ n →
      ∃ ids : List Nat, ids.length = n ∧
        (∀ k (hk : k < ids.length), ∃ it,
          (osd_work_item_queue_multiple q0 cb (n : Int) base stp flags
            (fun _ => true)).2.arr[ids.get ⟨k, hk⟩]? = some it ∧
          (ids.get ⟨k, hk⟩ < q0.arr.length →
            it.event = (getItemD q0 (ids.get ⟨k, hk⟩)).event ∧
            it.eventAllocs = (getItemD q0 (ids.get ⟨k, hk⟩)).eventAllocs) ∧
          (q0.arr.length ≤ ids.get ⟨k, hk⟩ →
            it.event = none ∧ it.eventAllocs = 0)) ∧
        (∀ j, j < q0.arr.length → j ∉ ids → ∃ it0 it1,
          q0.arr[j]? = some it0 ∧
          (osd_work_item_queue_multiple q0 cb (n : Int) base stp flags
            (fun _ => true)).2.arr[j]? = some it1 ∧
          it1.event = it0.event ∧ it1.eventAllocs = it0.eventAllocs)) ∧
    (∀ (q : OsdWorkQueue) (id : Nat) (timeout : Int) (e : Bool),
      id < q.arr.length → (getItemD q id).done = false →
      (getItemD q id).event = some e →
      ∃ it', (osd_work_item_wait q id timeout).2.arr[id]? = some it' ∧
        it'.event = some false ∧
        it'.eventAllocs = (getItemD q id).eventAllocs) ∧
    (∀ (q : OsdWorkQueue) (id : Nat) (timeout : Int),
      id < q.arr.length → (getItemD q id).done = false →
      (getItemD q id).event = none →
      ∃ it', (osd_work_item_wait q id timeout).2.arr[id]? = some it' ∧
        it'.event = some false ∧
        it'.eventAllocs = (getItemD q id).eventAllocs + 1) ∧
    (∀ (q : OsdWorkQueue) (id : Nat) (it0 : OsdWorkItem),
      q.arr[id]? = some it0 →
      ∃ it', (complete_item q id).arr[id]? = some it' ∧
        it'.event.isSome = it0.event.isSome ∧
        it'.eventAllocs = it0.eventAllocs) ∧
    (∀ (q : OsdWorkQueue) (id : Nat) (timeout : Int),
      id < q.arr.length → eventInv (getItemD q id) →
      eventInv (getItemD (osd_work_item_wait q id timeout).2 id)) := by
  have hwait_some : ∀ (q : OsdWorkQueue) (id : Nat) (timeout : Int) (e : Bool),
      id < q.arr.length → (getItemD q id).done = false →
      (getItemD q id).event = some e →
      (osd_work_item_wait q id timeout).2.arr[id]? =
        some { getItemD q id with event := some false } := by
    intro q id timeout e hlt hnd hev
    have hevne : ¬ (getItemD q id).event = none := by simp [hev]
    simp only [osd_work_item_wait, hnd, Bool.false_eq_true, if_false, hevne,
      if_neg, setItem]
    exact List.getElem?_set_eq_of_lt _ hlt
  have hwait_none : ∀ (q : OsdWorkQueue) (id : Nat) (timeout : Int),
      id < q.arr.length → (getItemD q id).done = false →
      (getItemD q id).event = none →
      (osd_work_item_wait q id timeout).2.arr[id]? =
        some { getItemD q id with
          event := some false
          eventAllocs := (getItemD q id).eventAllocs + 1 } := by
    intro q id timeout hlt hnd hev
    simp only [osd_work_item_wait, hnd, Bool.false_eq_true, if_false, hev,
      if_pos, setItem]
    exact List.getElem?_set_eq_of_lt _ hlt
  refine ⟨?_, ?_, ?_, ?_, ?_⟩
  · intro q0 cb n base stp flags pids fids hp hf hnd htail hthreads hn
    obtain ⟨ids, q3, hmain, hlen, hnd2, hchain, hitems, hthr, hwait, hflg,
      htl, hfld, hframe⟩ := submit_spliced q0 cb n base stp flags pids fids
        hp hf hnd htail hn
    have hq3ne : ¬ q3.threads = 0 := by
      rw [hthr]
      exact hthreads
    have hsnd : (osd_work_item_queue_multiple q0 cb (n : Int) base stp flags
        (fun _ => true)).2 = q3 := by
      rw [hmain]
      simp [hq3ne]
    refine ⟨ids, hlen, ?_, ?_⟩
    · intro k hk
      obtain ⟨it, hit, -, -, -, -, -, hevLT, hevGE⟩ := hfld k hk
      rw [hsnd]
      exact ⟨it, hit, hevLT, hevGE⟩
    · intro j hj hjids
      obtain ⟨it0, it1, hit0, hit1, -, -, -, -, -, hev, hall⟩ := hframe j hj hjids
      rw [hsnd]
      exact ⟨it0, it1, hit0, hit1, hev, hall⟩
  · intro q id timeout e hlt hnd hev
    exact ⟨_, hwait_some q id timeout e hlt hnd hev, rfl, rfl⟩
  · intro q id timeout hlt hnd hev
    exact ⟨_, hwait_none q id timeout hlt hnd hev, rfl, rfl⟩
  · intro q id it0 h
    obtain ⟨-, -, -, -, -, it', hit', -, -, -, -, -, hev, hall⟩ :=
      complete_item_spec q id it0 h
    exact ⟨it', hit', hev, hall⟩
  · intro q id timeout hlt hinv
    by_cases hdn : (getItemD q id).done = true
    · have : (osd_work_item_wait q id timeout).2 = q := by
        simp [osd_work_item_wait, hdn]
      rw [this]
      exact hinv
    · have hnd : (getItemD q id).done = false := by
        cases hx : (getItemD q id).done
        · rfl
        · exact absurd hx hdn
      cases hev : (getItemD q id).event with
      | none =>
        have heq := hwait_none q id timeout hlt hnd hev
        have hget : getItemD (osd_work_item_wait q id timeout).2 id =
            { getItemD q id with
              event := some false
              eventAllocs := (getItemD q id).eventAllocs + 1 } := by
          simp [getItemD, heq]
        rw [hget]
        have h0 : (getItemD q id).eventAllocs = 0 := hinv.2.mp hev
        constructor
        · simp [h0]
        · simp [h0]
      | some e =>
        have heq := hwait_some q id timeout e hlt hnd hev
        have hget : getItemD (osd_work_item_wait q id timeout).2 id =
            { getItemD q id with event := some false } := by
          simp [getItemD, heq]
        rw [hget]
        have hne : (getItemD q id).eventAllocs ≠ 0 := by
          intro h0
          have := hinv.2.mpr h0
          rw [hev] at this
          cases this
        constructor
        · exact hinv.1
        · simp
          exact hne

/-- A queue whose free list holds one recycled item that already owns an
event (allocated once). -/
def recycleQueue : OsdWorkQueue :=
  { arr := [{ fresh_item with event := some false, eventAllocs := 1 }]
    list := none
    tailptr := TailPtr.listHead
    free := some 0
    items := 0
    waiting := false
    threads := 1
    flags := 0
    doneevent := true }

/-- Witness for C10: submitting one item to `recycleQueue` recycles the free
item and keeps its event. -/
theorem event_retention_across_recycle_witness :
    ∃ ids : List Nat, ids.length = 1 ∧
      (∀ k (hk : k < ids.length), ∃ it,
        (osd_work_item_queue_multiple recycleQueue (fun x => x) ((1 : Nat) : Int)
          0 0 0 (fun _ => true)).2.arr[ids.get ⟨k, hk⟩]? = some it ∧
        (ids.get ⟨k, hk⟩ < recycleQueue.arr.length →
          it.event = (getItemD recycleQueue (ids.get ⟨k, hk⟩)).event ∧
          it.eventAllocs = (getItemD recycleQueue (ids.get ⟨k, hk⟩)).eventAllocs) ∧
        (recycleQueue.arr.length ≤ ids.get ⟨k, hk⟩ →
          it.event = none ∧ it.eventAllocs = 0)) ∧
      (∀ j, j < recycleQueue.arr.length → j ∉ ids → ∃ it0 it1,
        recycleQueue.arr[j]? = some it0 ∧
        (osd_work_item_queue_multiple recycleQueue (fun x => x) ((1 : Nat) : Int)
          0 0 0 (fun _ => true)).2.arr[j]? = some it1 ∧
        it1.event = it0.event ∧ it1.eventAllocs = it0.eventAllocs) :=
  event_retention_across_recycle.1 recycleQueue (fun x => x) 1 0 0 0 [] [0]
    (ChainSeg.nil none) (ChainSeg.cons rfl (ChainSeg.nil none)) (by simp)
    (Or.inl ⟨rfl, rfl⟩) (by decide) (by omega)
